import Mathlib

/-!
Verification of the AI-Space-Search-Engine repository against its
natural-language specification.

The development shallowly embeds the Python source:

* `PyStr`      — Python string primitives (`find`, `rfind`, slicing, `strip`)
                 modelled on `List Char`; ASCII semantics for character
                 classification (the corpus and all inputs of interest are
                 ASCII or simple Unicode, where Python and this model agree).
* `JVal`       — JSON values as produced by `json.loads` (numbers modelled as
                 integers; floating point does not occur in any claim).
* `GenApi`     — `backend/generation/api.py`: response extraction and
                 citation reconciliation of `RAGAPI.query_json`.
* `Pipeline`   — `backend/generation/rag_pipeline.py` and
                 `retrieval_client.py`, instrumented with a call log; the
                 vector store and the LLM are behaviour parameters.
* `Sha1`       — a byte-level SHA-1, used by `nasa_parser` chunk IDs and by
                 the UUID5 derivation of `ingest/qdrant_utils.py`.
* `NasaCli`    — `nasa_parser/nasa_parser/cli.py`: `make_section`, `make_id`.
* `Qd`         — `ingest/qdrant_utils.py`: `make_point_id`, retry loop of
                 `upsert_batch`.
* `Splade`     — `ingest/encoders.py`: `SpladeEncoder.encode` with the
                 masked-LM logits and the `log1p` activation as parameters
                 (the neural network and real-valued `log1p` live outside
                 the repository; weights are modelled as rationals).
-/

namespace PyStr

/-- Python whitespace test for `str.strip()` (ASCII whitespace). -/
def pyIsSpace (c : Char) : Bool :=
  c = ' ' || c = '\t' || c = '\n' || c = '\r' || c = Char.ofNat 11 || c = Char.ofNat 12

/-- The character `{`, written via its code so that no brace appears in a literal. -/
def lbrace : Char := Char.ofNat 123

/-- The character `}`. -/
def rbrace : Char := Char.ofNat 125

/-- Python `s.find(c)` for a single character: index of first occurrence. -/
def findCharAux (c : Char) : List Char → Nat → Option Nat
  | [], _ => none
  | x :: xs, i => if x = c then some i else findCharAux c xs (i + 1)

def findChar (c : Char) (s : List Char) : Option Nat := findCharAux c s 0

/-- Python `s.rfind(c)` for a single character: index of last occurrence. -/
def rfindChar (c : Char) (s : List Char) : Option Nat :=
  (findCharAux c s.reverse 0).map (fun i => s.length - 1 - i)

/-- Python `s.find(pat)` for a substring pattern: leftmost match position. -/
def findAux (pat : List Char) : List Char → Nat → Option Nat
  | [], i => if pat.isPrefixOf ([] : List Char) then some i else none
  | x :: xs, i => if pat.isPrefixOf (x :: xs) then some i else findAux pat xs (i + 1)

def find (pat : List Char) (s : List Char) : Option Nat := findAux pat s 0

/-- Python `s.find(pat, start)`. -/
def findFrom (pat : List Char) (s : List Char) (start : Nat) : Option Nat :=
  (find pat (s.drop start)).map (· + start)

/-- Python `pat in s` substring containment. -/
def containsSub (pat : List Char) (s : List Char) : Bool := (find pat s).isSome

/-- Python slice `s[a:b]` for non-negative bounds. -/
def pySlice (s : List Char) (a b : Nat) : List Char := (s.drop a).take (b - a)

/-- Python `s.lstrip()` (ASCII whitespace). -/
def lstripWS (s : List Char) : List Char := s.dropWhile pyIsSpace

/-- Python `s.rstrip()` (ASCII whitespace). -/
def rstripWS (s : List Char) : List Char := (s.reverse.dropWhile pyIsSpace).reverse

/-- Python `s.strip()` (ASCII whitespace). -/
def pyStrip (s : List Char) : List Char := rstripWS (lstripWS s)

/-- Python `s.strip(chars)` for a single strip character. -/
def stripChar (c : Char) (s : List Char) : List Char :=
  ((s.dropWhile (· = c)).reverse.dropWhile (· = c)).reverse

end PyStr

mutual
/-- JSON values as returned by `json.loads`. Numbers are modelled as integers
(no claim involves fractional JSON numbers); objects preserve key order. -/
inductive JVal
  | jnull
  | jbool (b : Bool)
  | jnum (n : Int)
  | jstr (s : String)
  | jarr (xs : JArr)
  | jobj (fs : JObj)
  deriving DecidableEq
/-- A JSON array (isomorphic to `List JVal`; a separate mutual inductive so
that decidable equality can be derived). -/
inductive JArr
  | nil
  | cons (v : JVal) (rest : JArr)
  deriving DecidableEq
/-- A JSON object: an ordered association list of key/value pairs. -/
inductive JObj
  | nil
  | cons (k : String) (v : JVal) (rest : JObj)
  deriving DecidableEq
end

namespace JArr

def toList : JArr → List JVal
  | .nil => []
  | .cons v rest => v :: toList rest

def ofList : List JVal → JArr
  | [] => .nil
  | v :: rest => .cons v (ofList rest)

end JArr

namespace JObj

/-- Python `d[k]` / `k in d` lookup: first binding of the key (Python dicts
have unique keys, so first-vs-last is immaterial for dict-shaped objects). -/
def lookup (k : String) : JObj → Option JVal
  | .nil => none
  | .cons k' v rest => if k' = k then some v else lookup k rest

end JObj

namespace JVal

/-- Python truthiness of a JSON value (`bool(v)`). -/
def truthy : JVal → Bool
  | .jnull => false
  | .jbool b => b
  | .jnum n => n ≠ 0
  | .jstr s => s ≠ ""
  | .jarr a => a != .nil
  | .jobj o => o != .nil

/-- Whether the value is hashable in Python (usable as a `set` element):
JSON scalars are, lists and dicts are not. -/
def hashable : JVal → Bool
  | .jnull | .jbool _ | .jnum _ | .jstr _ => true
  | .jarr _ | .jobj _ => false

end JVal

namespace GenApi

open PyStr

/-- The characters of the opening marker of a JSON fenced block. -/
def jsonFenceMark : List Char := "```json".data

/-- The characters of a generic fence marker. -/
def fenceMark : List Char := "```".data

/-- Lines 44-62 of `backend/generation/api.py` (`RAGAPI.query_json`): the
fenced-block pass selecting the candidate JSON text from the raw LLM answer —
a ```json block if its marker occurs, else a generic ``` block, else the
first-`{`-to-last-`}` slice. `find`/`rfind`/slices follow Python string
semantics. -/
def selectCandidate (answer : List Char) : List Char :=
  match PyStr.find jsonFenceMark answer with
  | some i =>
    match PyStr.findFrom fenceMark answer (i + 7) with
    | some e => pyStrip (pySlice answer (i + 7) e)
    | none => answer
  | none =>
    match PyStr.find fenceMark answer with
    | some i =>
      match PyStr.findFrom fenceMark answer (i + 3) with
      | some e => pyStrip (pySlice answer (i + 3) e)
      | none => answer
    | none =>
      match findChar lbrace answer, rfindChar rbrace answer with
      | some fb, some lb => if fb < lb then pySlice answer fb (lb + 1) else answer
      | _, _ => answer

/-- Lines 64-73 of `api.py`: the additional cleanup pass. -/
def braceCleanup (a1 : List Char) : List Char :=
  let a2 :=
    if (pyStrip a1).head? = some lbrace then a1
    else
      match findChar lbrace a1 with
      | some fb => a1.drop fb
      | none => a1
  if (pyStrip a2).getLast? = some rbrace then a2
  else
    match rfindChar rbrace a2 with
    | some lb => a2.take (lb + 1)
    | none => a2

/-- The whole extraction, lines 44-73. -/
def extract_answer_text (answer : List Char) : List Char :=
  braceCleanup (selectCandidate answer)

/-- The URL a citation entry contributes per the spec: a string entry is
itself a URL, an object entry contributes its `url` value; anything else
contributes nothing. -/
def citationUrl : JVal → Option JVal
  | .jstr s => some (.jstr s)
  | .jobj fs => fs.lookup "url"
  | _ => none

/-- The URLs of a citation list, in order (specification-side definition). -/
def urlsOf (cs : List JVal) : List JVal := cs.filterMap citationUrl

/-- First-occurrence deduplication (specification-side definition):
keep an element iff it has not been seen before. -/
def firstDedupAux (seen : List JVal) : List JVal → List JVal
  | [] => []
  | x :: xs => if x ∈ seen then firstDedupAux seen xs else x :: firstDedupAux (x :: seen) xs

/-- Deduplicate a list of URLs preserving first-occurrence order. -/
def firstDedup (l : List JVal) : List JVal := firstDedupAux [] l

/-- Lines 81-94 of `backend/generation/api.py`: the citation loop. `seen`
models the Python set `seen_urls` (membership by equality; an unhashable
url — a JSON list or object — raises `TypeError`, modelled as `.error`),
`acc` the list `unique_citations` being built. -/
def reconcileAux (seen : List JVal) (acc : List JVal) : List JVal → Except String (List JVal)
  | [] => .ok acc.reverse
  | c :: rest =>
    match c with
    | .jstr s =>
      if JVal.jstr s ∈ seen then reconcileAux seen acc rest
      else reconcileAux (JVal.jstr s :: seen) (JVal.jstr s :: acc) rest
    | .jobj fs =>
      match fs.lookup "url" with
      | some url =>
        if url.hashable then
          if url ∈ seen then reconcileAux seen acc rest
          else reconcileAux (url :: seen) (url :: acc) rest
        else .error "unhashable type"
      | none => reconcileAux seen acc rest
    | _ => reconcileAux seen acc rest

/-- Lines 77-94 of `backend/generation/api.py`: deduplicate the parsed
response's citations while preserving order, handling both the bare-string
and the `{..., url, ...}` object representations. -/
def reconcileCitations (cs : List JVal) : Except String (List JVal) :=
  reconcileAux [] [] cs

/-- All citation URLs in the list are hashable Python values (no list/dict
URL value, which would make the set-membership test raise). -/
def allUrlsHashable (cs : List JVal) : Bool :=
  cs.all fun c =>
    match citationUrl c with
    | some u => u.hashable
    | none => true

end GenApi

namespace Pipeline

open PyStr

/-- A point returned by the vector store (`resp.points`): an id, a score and
an optional payload (`point.payload` may be `None`). -/
structure Point where
  pid : JVal
  score : ℚ
  payload : Option JObj
  deriving DecidableEq

/-- A formatted retrieval result (the dict built in
`RetrievalClient.retrieve_top_k`, lines 75-81). `sectionField` embeds the
Python key `section` (a Lean keyword). -/
structure RetrievedDoc where
  docId : JVal
  score : ℚ
  text : String
  sectionField : JVal
  fullPayload : JObj
  deriving DecidableEq

/-- Python `s.split("\n", 2)[-1]`: the text after the second newline, or
after the only newline, or the whole string when it has no newline. -/
def splitN2Last (s : List Char) : List Char :=
  match findChar '\n' s with
  | none => s
  | some i =>
    let r1 := s.drop (i + 1)
    match findChar '\n' r1 with
    | none => r1
    | some j => r1.drop (j + 1)

/-- Line 73 of `retrieval_client.py`: `(payload.get("text") or "").split("\n", 2)[-1]`.
A truthy non-string `text` value would raise `AttributeError` on `.split`
(modelled as `.error`); a falsy or missing one is replaced by `""`. -/
def docText (pl : JObj) : Except String String :=
  match pl.lookup "text" with
  | some (JVal.jstr s) =>
    if s ≠ "" then .ok (String.mk (splitN2Last s.data)) else .ok ""
  | some v => if v.truthy then .error "AttributeError: split" else .ok ""
  | none => .ok ""

/-- Lines 71-81 of `retrieval_client.py`: format one store point into a
result dict. -/
def formatPoint (p : Point) : Except String RetrievedDoc :=
  let pl := p.payload.getD JObj.nil
  match docText pl with
  | .error e => .error e
  | .ok t =>
    .ok { docId := p.pid, score := p.score, text := t,
          sectionField := (pl.lookup "section").getD (JVal.jstr "Unknown"),
          fullPayload := pl }

/-- `RetrievalClient.retrieve_top_k`, lines 50-86: run the store's fused
query (`query_points`, a behaviour parameter standing for the Qdrant call
with `limit=k`), format each point, and wrap any exception in
`RuntimeError("Retrieval failed: ...")`. -/
def retrieve_top_k (queryPoints : String → Nat → Except String (List Point))
    (query : String) (k : Nat) : Except String (List RetrievedDoc) :=
  match queryPoints query k with
  | .error e => .error ("Retrieval failed: " ++ e)
  | .ok pts =>
    match pts.mapM formatPoint with
    | .error e => .error ("Retrieval failed: " ++ e)
    | .ok docs => .ok docs

/-- The behaviours of the two external services used by the pipeline: the
vector store (`query_points`) and the LLM (`GeminiClient.generate_answer`).
Raising is modelled by `.error`. -/
structure PipelineEnv where
  queryPoints : String → Nat → Except String (List Point)
  generateAnswer : String → List RetrievedDoc → Option Nat → Except String String

/-- `RAGPipeline.__init__` state (`rag_pipeline.py`, lines 15-32). -/
structure RAGPipeline where
  collectionName : String
  topK : Nat
  maxTokens : Option Nat
  deriving DecidableEq

/-- `RAGPipeline.__init__`: the caller-suggested `top_k` is ignored and the
stored width is always 15 (`self.top_k = 15`). -/
def RAGPipeline.init (collectionName : String) (topK : Int) (maxTokens : Option Nat) :
    RAGPipeline :=
  { collectionName := collectionName, topK := 15, maxTokens := maxTokens }

/-- A value of the result dict returned by `RAGPipeline.query`. -/
inductive RVal
  | vstr (s : String)
  | vdocs (ds : List RetrievedDoc)
  | vnum (n : Nat)
  | vbool (b : Bool)
  deriving DecidableEq

/-- Instrumentation of the embedding: which store calls were issued
(question and limit of each) and how many times the LLM was invoked. -/
structure CallLog where
  storeCalls : List (String × Nat)
  llmCalls : Nat
  deriving DecidableEq

/-- The answer string of the except-branch of `RAGPipeline.query` (line 71). -/
def errorAnswer (e : String) : String :=
  "An error occurred while processing your question: " ++ e

/-- The answer string of the empty-retrieval branch (line 50). -/
def noDocsAnswer : String :=
  "I couldn't find any relevant information in the knowledge base to answer your question."

/-- The dict of the except-branch of `RAGPipeline.query` (lines 69-76). -/
def errorDict (e : String) : List (String × RVal) :=
  [("answer", .vstr (errorAnswer e)), ("retrieved_docs", .vdocs []),
   ("num_docs", .vnum 0), ("success", .vbool false), ("error", .vstr e)]

/-- The dict of the empty-retrieval branch (lines 48-54). -/
def noDocsDict : List (String × RVal) :=
  [("answer", .vstr noDocsAnswer), ("retrieved_docs", .vdocs []),
   ("num_docs", .vnum 0), ("success", .vbool false)]

/-- The dict of the success branch (lines 60-67). -/
def successDict (answer : String) (docs : List RetrievedDoc) (question : String) :
    List (String × RVal) :=
  [("answer", .vstr answer), ("retrieved_docs", .vdocs docs),
   ("num_docs", .vnum docs.length), ("success", .vbool true),
   ("question", .vstr question)]

/-- `RAGPipeline.query` (lines 34-76), with the call log of the embedding:
retrieve (the store is consulted once, with `self.top_k` as limit), return
the no-docs dict on an empty result without consulting the LLM, otherwise
generate; any raise from either step yields the except-branch dict. -/
def RAGPipeline.query (env : PipelineEnv) (p : RAGPipeline) (question : String) :
    List (String × RVal) × CallLog :=
  match retrieve_top_k env.queryPoints question p.topK with
  | .error e => (errorDict e, ⟨[(question, p.topK)], 0⟩)
  | .ok docs =>
    if docs.isEmpty then (noDocsDict, ⟨[(question, p.topK)], 0⟩)
    else
      match env.generateAnswer question docs p.maxTokens with
      | .error e => (errorDict e, ⟨[(question, p.topK)], 1⟩)
      | .ok answer => (successDict answer docs question, ⟨[(question, p.topK)], 1⟩)

end Pipeline

namespace JObj

/-- Build an object from bindings. -/
def ofList : List (String × JVal) → JObj
  | [] => .nil
  | (k, v) :: rest => .cons k v (ofList rest)

/-- Python `d[k] = v`: overwrite the binding if present, else append. -/
def set (k : String) (v : JVal) : JObj → JObj
  | .nil => .cons k v .nil
  | .cons k' v' rest => if k' = k then .cons k v rest else .cons k' v' (set k v rest)

end JObj

namespace GenApi

/-- The external behaviours `RAGAPI.query_json` depends on: the pipeline's
services, `json.loads` (Python stdlib; raising `JSONDecodeError` is `.error`)
and `image_search_service.search_images_for_keywords`. -/
structure ApiEnv where
  penv : Pipeline.PipelineEnv
  jsonLoads : String → Except String JVal
  imageSearch : JVal → Except String (List JVal)

/-- Python truthiness of a pipeline-result value. -/
def rvalTruthy : Pipeline.RVal → Bool
  | .vstr s => s ≠ ""
  | .vdocs ds => !ds.isEmpty
  | .vnum n => n ≠ 0
  | .vbool b => b

/-- `result["answer"]` of a pipeline result (always a string in every branch
of `RAGPipeline.query`; non-string is unreachable). -/
def answerOf (result : List (String × Pipeline.RVal)) : String :=
  match result.lookup "answer" with
  | some (.vstr a) => a
  | _ => ""

/-- `result.get("error", "Unknown error")` of a pipeline result. -/
def errOf (result : List (String × Pipeline.RVal)) : String :=
  match result.lookup "error" with
  | some (.vstr e) => e
  | _ => "Unknown error"

/-- Python `k in v` for a JSON value: key test on a dict, membership on a
list, substring test on a string, `TypeError` otherwise. -/
def pyInKey (k : String) (v : JVal) : Except String Bool :=
  match v with
  | .jobj fs => .ok (fs.lookup k).isSome
  | .jarr a => .ok (a.toList.contains (JVal.jstr k))
  | .jstr s => .ok (PyStr.containsSub k.data s.data)
  | _ => .error "TypeError: argument is not iterable"

/-- Python `v[k]` for a string key: only dicts support it; on a dict it is a
`KeyError` when absent. -/
def jvIndex (k : String) (v : JVal) : Except String JVal :=
  match v with
  | .jobj fs =>
    match fs.lookup k with
    | some x => .ok x
    | none => .error ("KeyError: " ++ k)
  | _ => .error "TypeError: indices must be integers"

/-- Python `v[k] = x` for a string key: only dicts support it. -/
def jvSet (k : String) (x : JVal) (v : JVal) : Except String JVal :=
  match v with
  | .jobj fs => .ok (.jobj (fs.set k x))
  | _ => .error "TypeError: indices must be integers"

/-- Lines 77-103 of `api.py`: deduplicate the `citations` entry when it is a
list, then fill `image_urls` from `image_keywords`. Any raise propagates to
the outer handler. -/
def postProcess (env : ApiEnv) (jr : JVal) : Except String JVal := do
  let jr1 ←
    match ← pyInKey "citations" jr with
    | true =>
      let citations ← jvIndex "citations" jr
      match citations with
      | .jarr a =>
        let uniq ← reconcileCitations a.toList
        jvSet "citations" (JVal.jarr (JArr.ofList uniq)) jr
      | _ => pure jr
    | false => pure jr
  match ← pyInKey "image_keywords" jr1 with
  | true =>
    let kw ← jvIndex "image_keywords" jr1
    if kw.truthy then do
      let urls ← env.imageSearch kw
      jvSet "image_urls" (JVal.jarr (JArr.ofList urls)) jr1
    else jvSet "image_urls" (JVal.jarr .nil) jr1
  | false => jvSet "image_urls" (JVal.jarr .nil) jr1

/-- The not-success fallback dict of `query_json` (lines 32-39). -/
def notSuccessDict (result : List (String × Pipeline.RVal)) : JVal :=
  .jobj (JObj.ofList
    [("answer_markdown", .jstr (answerOf result)), ("citations", .jarr .nil),
     ("image_citations", .jarr .nil), ("confidence_score", .jnum 0),
     ("error", .jstr (errOf result))])

/-- The parse-failure fallback dict of `query_json` (lines 105-113): the raw
unparsed LLM answer, empty citation lists, zero confidence and a distinct
parse-failure error message. -/
def parseFailDict (rawAnswer : String) (m : String) : JVal :=
  .jobj (JObj.ofList
    [("answer_markdown", .jstr rawAnswer), ("citations", .jarr .nil),
     ("image_citations", .jarr .nil), ("confidence_score", .jnum 0),
     ("error", .jstr ("Failed to parse JSON response: " ++ m))])

/-- The outer-exception dict of `query_json` (lines 115-122). -/
def outerErrorDict (e : String) : JVal :=
  .jobj (JObj.ofList
    [("answer_markdown", .jstr ("An error occurred: " ++ e)),
     ("citations", .jarr .nil), ("image_citations", .jarr .nil),
     ("confidence_score", .jnum 0), ("error", .jstr e)])

/-- `RAGAPI.query_json` (lines 19-122): run the pipeline once, bail out on a
non-success result, extract and parse the answer, post-process on success,
fall back to the raw answer on a JSON parse failure, and catch every other
exception in the outer handler. The call log is the pipeline's. -/
def query_json (env : ApiEnv) (p : Pipeline.RAGPipeline) (question : String) :
    JVal × Pipeline.CallLog :=
  let (result, log) := p.query env.penv question
  let dict :=
    if rvalTruthy ((result.lookup "success").getD (.vbool false)) = false then
      notSuccessDict result
    else
      let a := answerOf result
      match env.jsonLoads (String.mk (extract_answer_text a.data)) with
      | .error m => parseFailDict a m
      | .ok jr =>
        match postProcess env jr with
        | .ok v => v
        | .error e => outerErrorDict e
  (dict, log)

end GenApi

namespace Sha1

/-- Reduce modulo 2^32 (machine words are modelled as `Nat`). -/
def w32 (n : Nat) : Nat := n % 4294967296

/-- Rotate a 32-bit word left by `b` bits (`0 < b < 32`, `x < 2^32`): the
shifted-out high bits reappear at the bottom; the two summands occupy
disjoint bit ranges, so addition is bitwise or. -/
def rotl (b : Nat) (x : Nat) : Nat := (x * 2 ^ b) % 4294967296 + x / 2 ^ (32 - b)

/-- Big-endian byte rendering of `n`, `k` bytes wide. -/
def beBytes : Nat → Nat → List Nat
  | 0, _ => []
  | k + 1, n => beBytes k (n / 256) ++ [n % 256]

/-- Group bytes into big-endian 32-bit words. -/
def wordsOfBytes : List Nat → List Nat
  | b0 :: b1 :: b2 :: b3 :: rest =>
    (((b0 * 256 + b1) * 256 + b2) * 256 + b3) :: wordsOfBytes rest
  | _ => []

/-- Extend the 16 chunk words to the 80-word message schedule. The
accumulator holds the words most-recent-first, so `w[i-3]` is entry 2,
`w[i-8]` entry 7, `w[i-14]` entry 13 and `w[i-16]` entry 15. -/
def extendWords : Nat → List Nat → List Nat
  | 0, acc => acc
  | n + 1, acc =>
    let x := ((acc.getD 2 0 ^^^ acc.getD 7 0) ^^^ acc.getD 13 0) ^^^ acc.getD 15 0
    extendWords n (rotl 1 x :: acc)

/-- The round function and constant of SHA-1 round `i` (bitwise complement
of a word `b < 2^32` is `4294967295 - b`). -/
def fK (i b c d : Nat) : Nat × Nat :=
  if i < 20 then ((b &&& c) ||| ((4294967295 - b) &&& d), 1518500249)
  else if i < 40 then ((b ^^^ c) ^^^ d, 1859775393)
  else if i < 60 then ((b &&& c) ||| ((b &&& d) ||| (c &&& d)), 2400959708)
  else ((b ^^^ c) ^^^ d, 3395469782)

/-- One SHA-1 round. -/
def roundStep (st : Nat × Nat × Nat × Nat × Nat) (iw : Nat × Nat) :
    Nat × Nat × Nat × Nat × Nat :=
  let (a, b, c, d, e) := st
  let (f, k) := fK iw.1 b c d
  let temp := w32 (rotl 5 a + f + e + k + iw.2)
  (temp, a, rotl 30 b, c, d)

/-- Process one 64-byte chunk. -/
def processChunk (st : Nat × Nat × Nat × Nat × Nat) (chunk : List Nat) :
    Nat × Nat × Nat × Nat × Nat :=
  let w16 := wordsOfBytes chunk
  let sched := (extendWords 64 w16.reverse).reverse
  let (a, b, c, d, e) := ((List.range 80).zip sched).foldl roundStep st
  let (h0, h1, h2, h3, h4) := st
  (w32 (h0 + a), w32 (h1 + b), w32 (h2 + c), w32 (h3 + d), w32 (h4 + e))

/-- Consume the padded message 64 bytes at a time (`fuel` bounds the number
of iterations so the recursion is structural; `fuel = length` suffices). -/
def sha1Chunks : Nat → List Nat → Nat × Nat × Nat × Nat × Nat →
    Nat × Nat × Nat × Nat × Nat
  | 0, _, st => st
  | _ + 1, [], st => st
  | fuel + 1, bytes, st =>
    sha1Chunks fuel (bytes.drop 64) (processChunk st (bytes.take 64))

/-- SHA-1 padding: a 0x80 byte, zeros to 56 mod 64, and the bit length
big-endian in 8 bytes. -/
def padMessage (msg : List Nat) : List Nat :=
  let len := msg.length
  let padLen := (55 + 64 - len % 64) % 64
  msg ++ 128 :: (List.replicate padLen 0 ++ beBytes 8 (8 * len))

/-- The 20-byte SHA-1 digest of a byte string. -/
def sha1Bytes (msg : List Nat) : List Nat :=
  let padded := padMessage msg
  let st := sha1Chunks padded.length padded
    (1732584193, 4023233417, 2562383102, 271733878, 3285377520)
  let (h0, h1, h2, h3, h4) := st
  beBytes 4 h0 ++ (beBytes 4 h1 ++ (beBytes 4 h2 ++ (beBytes 4 h3 ++ beBytes 4 h4)))

/-- Lowercase hex digit. -/
def hexDigit (n : Nat) : Char := if n < 10 then Char.ofNat (48 + n) else Char.ofNat (87 + n)

/-- Two lowercase hex characters of a byte. -/
def hexByte (b : Nat) : List Char := [hexDigit (b / 16), hexDigit (b % 16)]

/-- Lowercase hex string of a byte string. -/
def hexOfBytes (bs : List Nat) : List Char := (bs.map hexByte).flatten

/-- Python `hashlib.sha1(msg).hexdigest()`. -/
def sha1Hex (msg : List Nat) : String := String.mk (hexOfBytes (sha1Bytes msg))

/-- UTF-8 bytes of one character. -/
def utf8Char (c : Char) : List Nat :=
  let n := c.toNat
  if n < 128 then [n]
  else if n < 2048 then [192 + n / 64, 128 + n % 64]
  else if n < 65536 then [224 + n / 4096, 128 + n / 64 % 64, 128 + n % 64]
  else [240 + n / 262144, 128 + n / 4096 % 64, 128 + n / 64 % 64, 128 + n % 64]

/-- Python `s.encode("utf-8")`. -/
def utf8Encode (s : String) : List Nat := (s.data.map utf8Char).flatten

end Sha1

namespace Uuid

/-- The bytes of `uuid.NAMESPACE_URL` (6ba7b811-9dad-11d1-80b4-00c04fd430c8). -/
def namespaceURL : List Nat :=
  [0x6b, 0xa7, 0xb8, 0x11, 0x9d, 0xad, 0x11, 0xd1,
   0x80, 0xb4, 0x00, 0xc0, 0x4f, 0xd4, 0x30, 0xc8]

/-- Python `str(uuid.uuid5(ns, name))`: the first 16 bytes of
`sha1(ns.bytes + name.encode("utf-8"))` with the version nibble forced to 5
and the variant bits to 10, rendered 8-4-4-4-12 in lowercase hex. -/
def uuid5 (ns : List Nat) (name : String) : String :=
  let h := (Sha1.sha1Bytes (ns ++ Sha1.utf8Encode name)).take 16
  let b6 := h.getD 6 0 % 16 + 80
  let b8 := h.getD 8 0 % 64 + 128
  let bytes := h.take 6 ++ ([b6] ++ ([h.getD 7 0] ++ ([b8] ++ h.drop 9)))
  String.mk (Sha1.hexOfBytes (bytes.take 4) ++ '-' ::
    (Sha1.hexOfBytes ((bytes.drop 4).take 2) ++ '-' ::
      (Sha1.hexOfBytes ((bytes.drop 6).take 2) ++ '-' ::
        (Sha1.hexOfBytes ((bytes.drop 8).take 2) ++ '-' ::
          Sha1.hexOfBytes (bytes.drop 10)))))

end Uuid

namespace NasaCli

/-- `make_section` (`nasa_parser/cli.py`, lines 130-131): the part of the
header after the first `" — "` separator, or the whole header. -/
def make_section (header : List Char) : List Char :=
  match PyStr.find " — ".data header with
  | some i => header.drop (i + 3)
  | none => header

/-- Line 138 of `cli.py`: `ch.lower() if ch.isalnum() else "-"` per character
(ASCII model of `str.isalnum`/`str.lower`), then `.strip("-")`. -/
def slugify (sec : List Char) : List Char :=
  PyStr.stripChar '-' (sec.map fun ch => if ch.isAlphanum then ch.toLower else '-')

/-- `make_id` (`cli.py`, lines 133-139): sha1 over
`f"{pmcid}\n{section_path}\n{text}"` truncated to 8 hex chars, and the slug
of the post-`" — "` section, joined as `pmcid:slug:hash`. -/
def make_id (section_path pmcid_val text_val : String) : String :=
  let basis := Sha1.utf8Encode (pmcid_val ++ "\n" ++ (section_path ++ ("\n" ++ text_val)))
  let h := String.mk ((Sha1.hexOfBytes (Sha1.sha1Bytes basis)).take 8)
  let sec := make_section section_path.data
  let sec_slug := slugify sec
  pmcid_val ++ ":" ++ (String.mk sec_slug ++ (":" ++ h))

/-- The slug as the claim words it: the whole `sectionPath` lowercased, every
non-alphanumeric character replaced by a hyphen, leading/trailing hyphens
trimmed (specification-side definition, for comparison with `slugify`). -/
def claimSlug (sectionPath : String) : List Char :=
  let lowered := sectionPath.data.map Char.toLower
  let replaced := lowered.map fun c => if c.isAlphanum then c else '-'
  ((replaced.dropWhile (· = '-')).reverse.dropWhile (· = '-')).reverse

end NasaCli

namespace Qd

mutual
/-- Python `repr` of a JSON value, as used by `str()` of containers. String
escaping beyond quote-free strings is not modelled (no claim reaches it). -/
def pyRepr : JVal → String
  | .jnull => "None"
  | .jbool true => "True"
  | .jbool false => "False"
  | .jnum n => toString n
  | .jstr s => "'" ++ s ++ "'"
  | .jarr a => "[" ++ String.intercalate ", " (pyReprArr a) ++ "]"
  | .jobj o =>
    String.mk [PyStr.lbrace] ++ String.intercalate ", " (pyReprObj o) ++
      String.mk [PyStr.rbrace]
def pyReprArr : JArr → List String
  | .nil => []
  | .cons v rest => pyRepr v :: pyReprArr rest
def pyReprObj : JObj → List String
  | .nil => []
  | .cons k v rest => ("'" ++ k ++ "': " ++ pyRepr v) :: pyReprObj rest
end

/-- Python `str()` of a JSON value. -/
def pyStr : JVal → String
  | .jstr s => s
  | v => pyRepr v

/-- Lines 57-59 of `ingest/qdrant_utils.py`: `str(record.get("text") or "")`. -/
def fallbackBasis (record : JObj) : String :=
  match record.lookup "text" with
  | some v => if v.truthy then pyStr v else ""
  | none => ""

/-- `make_point_id` (`qdrant_utils.py`, lines 51-61): a deterministic UUID5
over `uuid.NAMESPACE_URL` of the record's `id` when it is a non-empty
string, else of `str(record.get("text") or "")`. -/
def make_point_id (record : JObj) : String :=
  let basis :=
    match record.lookup "id" with
    | some (JVal.jstr rid) => if rid ≠ "" then rid else fallbackBasis record
    | _ => fallbackBasis record
  Uuid.uuid5 Uuid.namespaceURL basis

/-- Modelled from the spec: the storage engine (Qdrant, not part of the
repository) keyed by point ID — "re-ingesting byte-identical content MUST
produce the same `id` and therefore the same index point (idempotent
upsert)". An upsert overwrites the point that has the same ID. -/
def upsertPoint (store : List (String × JObj)) (pid : String) (pl : JObj) :
    List (String × JObj) :=
  store.filter (fun e => e.1 ≠ pid) ++ [(pid, pl)]

/-- The retry loop of `upsert_batch` (`qdrant_utils.py`, lines 101-116).
`outcome n` is the behaviour of the `n`-th `upload_collection` call (`none`
= success, `some e` = raise); the first argument counts
`max_retries - attempt`, so the `raise` branch is taken exactly when
`attempt + 1 >= max_retries`, i.e. when the count is `≤ 1` (the two base
cases).
Returns the result and the list of `time.sleep` durations
(`retry_backoff_sec * attempt`). -/
def retryAux (outcome : Nat → Option String) (backoff : ℚ) :
    Nat → Nat → Except String Unit × List ℚ
  | 0, attempt =>
    match outcome attempt with
    | none => (.ok (), [])
    | some e => (.error e, [])
  | 1, attempt =>
    match outcome attempt with
    | none => (.ok (), [])
    | some e => (.error e, [])
  | k' + 2, attempt =>
    match outcome attempt with
    | none => (.ok (), [])
    | some e =>
      let r := retryAux outcome backoff (k' + 1) (attempt + 1)
      (r.1, backoff * ((attempt + 1 : Nat) : ℚ) :: r.2)

/-- The retry loop started at `attempt = 0` with `k = max_retries`. -/
def retry_loop (outcome : Nat → Option String) (max_retries : Nat) (backoff : ℚ) :
    Except String Unit × List ℚ :=
  retryAux outcome backoff max_retries 0

/-- `upsert_batch` over its upload chunks: each chunk runs the retry loop;
the first chunk that exhausts its budget raises out of the whole call and
later chunks are not attempted. -/
def upsert_batch (chunkOutcomes : List (Nat → Option String)) (max_retries : Nat)
    (backoff : ℚ) : Except String Unit × List ℚ :=
  match chunkOutcomes with
  | [] => (.ok (), [])
  | o :: rest =>
    match retry_loop o max_retries backoff with
    | (.error e, ss) => (.error e, ss)
    | (.ok _, ss) =>
      let (r, ss') := upsert_batch rest max_retries backoff
      (r, ss ++ ss')

/-- The default `max_retries` of `upsert_batch`. -/
def defaultMaxRetries : Nat := 5

/-- The default `retry_backoff_sec` of `upsert_batch` (2.0). -/
def defaultRetryBackoffSec : ℚ := 2

end Qd

namespace Splade

/-- `torch.relu` on a rational weight. -/
def reluQ (x : ℚ) : ℚ := max x 0

/-- Elementwise maximum of two equal-length rows. -/
def maxRows (r1 r2 : List ℚ) : List ℚ := List.zipWith max r1 r2

/-- `torch.max(scores, dim=1)` for one document: the per-vocabulary-term
maximum over token positions of `act (relu logit)`, where `act` stands for
`torch.log1p` (a behaviour parameter: real-valued `log1p` is external to the
repository; the claims need only its sign and monotonicity). -/
def pooledRow (act : ℚ → ℚ) (mat : List (List ℚ)) : List ℚ :=
  match mat.map (fun row => row.map fun x => act (reluQ x)) with
  | [] => []
  | r :: rs => rs.foldl maxRows r

/-- `torch.topk(row, k)`: the `k` largest entries of the row with their
indices, values descending (ties resolved by lower index, one deterministic
reading of torch's unspecified tie order). -/
def topkSelect (k : Nat) (row : List ℚ) : List (Nat × ℚ) :=
  (row.enum.mergeSort fun a b => b.2 < a.2 ∨ (a.2 = b.2 ∧ a.1 ≤ b.1)).take k

/-- Lines 79-85 of `ingest/encoders.py`: per pooled row, take the top
`min(top_k, numel)` entries and keep the strictly positive ones. -/
def sparseOfRow (k : Nat) (row : List ℚ) : List (Nat × ℚ) :=
  (topkSelect (min k row.length) row).filter fun p => 0 < p.2

/-- One batch of `SpladeEncoder.encode`: the model's logits for the batch
(`[B, L, V]`) pooled and sparsified, one sparse map per batch row. -/
def encodeBatch (act : ℚ → ℚ) (k : Nat) (logits : List (List (List ℚ))) :
    List (List (Nat × ℚ)) :=
  logits.map fun mat => sparseOfRow k (pooledRow act mat)

/-- `range(0, len(texts), batch_size)` chunking (`batch_size ≥ 1`). -/
def chunkList (bs : Nat) : List α → List (List α)
  | [] => []
  | x :: xs => (x :: xs.take (bs - 1)) :: chunkList bs (xs.drop (bs - 1))
termination_by l => l.length
decreasing_by simp; omega

/-- `SpladeEncoder.encode` (lines 61-86): process the texts in batches; the
tokenizer+model forward pass is the behaviour parameter `logitsFn` (one
`[L, V]` logit matrix per batch text). -/
def encode (logitsFn : List String → List (List (List ℚ))) (act : ℚ → ℚ)
    (k : Nat) (bs : Nat) (texts : List String) : List (List (Nat × ℚ)) :=
  ((chunkList bs texts).map fun b => encodeBatch act k (logitsFn b)).flatten

end Splade

namespace PyStr

theorem dropWhile_idem (p : Char → Bool) (l : List Char) :
    (l.dropWhile p).dropWhile p = l.dropWhile p := by
  induction l with
  | nil => rfl
  | cons x xs ih =>
    by_cases h : p x
    · simp [List.dropWhile_cons, h, ih]
    · simp [List.dropWhile_cons, h]

theorem dropWhile_append_singleton (p : Char → Bool) (c : Char) (h : p c = false)
    (xs : List Char) : (xs ++ [c]).dropWhile p = xs.dropWhile p ++ [c] := by
  induction xs with
  | nil => simp [List.dropWhile_cons, h]
  | cons x xs ih => by_cases hx : p x <;> simp [List.dropWhile_cons, hx, ih]

theorem head_not_of_dropWhile (p : Char → Bool) (l : List Char) (c : Char)
    (h : (l.dropWhile p).head? = some c) : p c = false := by
  have hd := List.head?_dropWhile_not p l
  rw [h] at hd
  exact hd

theorem rstripWS_cons (c : Char) (h : pyIsSpace c = false) (t : List Char) :
    rstripWS (c :: t) = c :: rstripWS t := by
  unfold rstripWS
  rw [show (c :: t).reverse = t.reverse ++ [c] by simp,
    dropWhile_append_singleton _ _ h]
  simp

theorem rstripWS_concat_eq (u : List Char) (c : Char) (h : pyIsSpace c = false) :
    rstripWS (u ++ [c]) = u ++ [c] := by
  unfold rstripWS
  rw [show (u ++ [c]).reverse = c :: u.reverse by simp]
  simp [List.dropWhile_cons, h]

theorem rstripWS_prefix (l : List Char) : rstripWS l <+: l := by
  unfold rstripWS
  have h1 : l.reverse.dropWhile pyIsSpace <:+ l.reverse := List.dropWhile_suffix _
  have h2 := (@List.reverse_prefix Char (l.reverse.dropWhile pyIsSpace) l.reverse).mpr h1
  rwa [List.reverse_reverse] at h2

theorem rstripWS_idem (l : List Char) : rstripWS (rstripWS l) = rstripWS l := by
  unfold rstripWS
  rw [List.reverse_reverse, dropWhile_idem]

theorem pyStrip_idem (s : List Char) : pyStrip (pyStrip s) = pyStrip s := by
  have hv : lstripWS (lstripWS s) = lstripWS s := dropWhile_idem _ s
  have hl : lstripWS (rstripWS (lstripWS s)) = rstripWS (lstripWS s) := by
    cases hw : rstripWS (lstripWS s) with
    | nil => rfl
    | cons c t =>
      have hpre : rstripWS (lstripWS s) <+: lstripWS s := rstripWS_prefix _
      rw [hw] at hpre
      obtain ⟨w, hw2⟩ := hpre
      have hc : pyIsSpace c = false := by
        by_contra hcc
        have hcc' : pyIsSpace c = true := by
          cases hb : pyIsSpace c with
          | false => exact absurd hb hcc
          | true => rfl
        have hlen := hv
        rw [← hw2] at hlen
        have hlval := congrArg List.length hlen
        have hstep : List.dropWhile pyIsSpace (c :: (t ++ w)) =
            List.dropWhile pyIsSpace (t ++ w) := by
          rw [List.dropWhile_cons, hcc']
          simp
        have hle : ((t ++ w).dropWhile pyIsSpace).length ≤ (t ++ w).length :=
          (List.dropWhile_suffix pyIsSpace).length_le
        simp only [lstripWS] at hlval
        rw [show c :: t ++ w = c :: (t ++ w) from rfl, hstep, List.length_cons] at hlval
        omega
      simp [lstripWS, List.dropWhile_cons, hc]
  calc pyStrip (pyStrip s) = rstripWS (lstripWS (rstripWS (lstripWS s))) := rfl
    _ = rstripWS (rstripWS (lstripWS s)) := by rw [hl]
    _ = rstripWS (lstripWS s) := rstripWS_idem _
    _ = pyStrip s := rfl

theorem pyStrip_head (s : List Char) (c : Char) (hh : s.head? = some c)
    (hc : pyIsSpace c = false) : (pyStrip s).head? = some c := by
  cases s with
  | nil => simp at hh
  | cons x t =>
    have hx : x = c := by simpa using hh
    subst hx
    have h1 : lstripWS (x :: t) = x :: t := by
      simp [lstripWS, List.dropWhile_cons, hc]
    unfold pyStrip
    rw [h1, rstripWS_cons x hc t]
    rfl

theorem eq_concat_of_getLast? {s : List Char} {c : Char} (h : s.getLast? = some c) :
    ∃ u, s = u ++ [c] := by
  have hne : s ≠ [] := by
    intro he
    rw [he] at h
    simp at h
  have hg : s.getLast hne = c := by
    have := List.getLast?_eq_getLast s hne
    rw [this] at h
    simpa using h
  exact ⟨s.dropLast, by rw [← hg]; exact (List.dropLast_concat_getLast hne).symm⟩

theorem pyStrip_getLast (s : List Char) (c : Char) (hh : s.getLast? = some c)
    (hc : pyIsSpace c = false) : (pyStrip s).getLast? = some c := by
  obtain ⟨u, rfl⟩ := eq_concat_of_getLast? hh
  unfold pyStrip lstripWS
  rw [dropWhile_append_singleton _ _ hc, rstripWS_concat_eq _ _ hc]
  exact List.getLast?_concat _

theorem findAux_append (pat : List Char) (hc : Char) (rest pre : List Char)
    (hpat : pat.head? = some hc) (hpre : hc ∉ pre) :
    ∀ i, findAux pat (pre ++ (pat ++ rest)) i = some (i + pre.length) := by
  induction pre with
  | nil =>
    intro i
    cases pat with
    | nil => simp at hpat
    | cons a pt =>
      have hpref : (a :: pt).isPrefixOf ((a :: pt) ++ rest) = true :=
        List.isPrefixOf_iff_prefix.mpr (List.prefix_append _ _)
      simp [findAux, hpref]
  | cons x pre ih =>
    intro i
    have hne : hc ≠ x := fun h => hpre (h ▸ List.mem_cons_self x pre)
    have hfalse : pat.isPrefixOf (x :: (pre ++ (pat ++ rest))) = false := by
      cases pat with
      | nil => simp at hpat
      | cons a pt =>
        have ha : a = hc := by simpa using hpat
        have hax : (a == x) = false := by
          rw [ha]
          exact beq_eq_false_iff_ne.mpr hne
        simp [List.isPrefixOf, hax]
    have hpre' : hc ∉ pre := fun h => hpre (List.mem_cons_of_mem x h)
    have hstep := (ih hpre') (i + 1)
    rw [List.cons_append]
    simp only [findAux, hfalse, Bool.false_eq_true, if_false]
    rw [hstep]
    congr 1
    simp only [List.length_cons]
    omega

theorem find_at_append (pat : List Char) (hc : Char) (rest pre : List Char)
    (hpat : pat.head? = some hc) (hpre : hc ∉ pre) :
    find pat (pre ++ (pat ++ rest)) = some pre.length := by
  have := findAux_append pat hc rest pre hpat hpre 0
  simpa [find] using this

theorem findAux_none_mono (pat pat' : List Char) (hsub : pat <+: pat')
    (hne : pat ≠ []) :
    ∀ (s : List Char) (i j : Nat), findAux pat s i = none → findAux pat' s j = none := by
  intro s
  induction s with
  | nil =>
    intro i j h
    have h1 : pat.isPrefixOf ([] : List Char) = false := by
      cases hb : pat.isPrefixOf ([] : List Char) with
      | false => rfl
      | true => simp [findAux, hb] at h
    have h2 : pat'.isPrefixOf ([] : List Char) = false := by
      cases hb : pat'.isPrefixOf ([] : List Char) with
      | false => rfl
      | true =>
        have := List.isPrefixOf_iff_prefix.mp hb
        have hp' : pat' = [] := List.prefix_nil.mp this
        subst hp'
        have : pat = [] := List.prefix_nil.mp hsub
        exact absurd this hne
    simp [findAux, h2]
  | cons x xs ih =>
    intro i j h
    have h1 : pat.isPrefixOf (x :: xs) = false := by
      cases hb : pat.isPrefixOf (x :: xs) with
      | false => rfl
      | true => simp [findAux, hb] at h
    have hrec : findAux pat xs (i + 1) = none := by
      simp only [findAux, h1, Bool.false_eq_true, if_false] at h
      exact h
    have h2 : pat'.isPrefixOf (x :: xs) = false := by
      cases hb : pat'.isPrefixOf (x :: xs) with
      | false => rfl
      | true =>
        have hp := List.isPrefixOf_iff_prefix.mp hb
        have : pat <+: x :: xs := hsub.trans hp
        rw [← List.isPrefixOf_iff_prefix] at this
        rw [this] at h1
        exact absurd h1 (by simp)
    simp only [findAux, h2, Bool.false_eq_true, if_false]
    exact ih (i + 1) (j + 1) hrec

theorem find_none_mono (pat pat' : List Char) (s : List Char) (hsub : pat <+: pat')
    (hne : pat ≠ []) (h : find pat s = none) : find pat' s = none :=
  findAux_none_mono pat pat' hsub hne s 0 0 h

theorem findCharAux_some (c : Char) :
    ∀ (s : List Char) (i j : Nat), findCharAux c s i = some j →
      ∃ m, m < s.length ∧ j = i + m ∧ s.get? m = some c := by
  intro s
  induction s with
  | nil => intro i j h; simp [findCharAux] at h
  | cons x xs ih =>
    intro i j h
    by_cases hx : x = c
    · subst hx
      simp [findCharAux] at h
      exact ⟨0, by simp, by omega, by simp⟩
    · simp only [findCharAux, hx, if_false] at h
      obtain ⟨m, hm, hj, hg⟩ := ih (i + 1) j h
      exact ⟨m + 1, by simp; omega, by omega, by simpa using hg⟩

theorem findChar_some (c : Char) (s : List Char) (i : Nat)
    (h : findChar c s = some i) : i < s.length ∧ s.get? i = some c := by
  obtain ⟨m, hm, hj, hg⟩ := findCharAux_some c s 0 i h
  have : i = m := by omega
  subst this
  exact ⟨hm, hg⟩

theorem rfindChar_some (c : Char) (s : List Char) (j : Nat)
    (h : rfindChar c s = some j) : j < s.length ∧ s.get? j = some c := by
  unfold rfindChar at h
  cases hf : findCharAux c s.reverse 0 with
  | none => rw [hf] at h; simp at h
  | some m =>
    rw [hf] at h
    simp only [Option.map_some'] at h
    obtain ⟨m', hm, hj, hg⟩ := findCharAux_some c s.reverse 0 m hf
    have hmm : m' = m := by omega
    subst hmm
    have hmlen : m' < s.length := by simpa using hm
    have hrev : s.reverse.get? m' = s.get? (s.length - 1 - m') :=
      List.get?_reverse (by simpa using hm)
    rw [hrev] at hg
    have hj2 : s.length - 1 - m' = j := Option.some.inj h
    rw [hj2] at hg
    exact ⟨by omega, hg⟩

end PyStr

namespace GenApi

open PyStr

theorem jsonFenceMark_length : jsonFenceMark.length = 7 := by decide

theorem fenceMark_length : fenceMark.length = 3 := by decide

theorem braceCleanup_noop (a : List Char)
    (h1 : (pyStrip a).head? = some lbrace)
    (h2 : (pyStrip a).getLast? = some rbrace) :
    braceCleanup a = a := by
  simp [braceCleanup, h1, h2]

theorem selectCandidate_json_fenced (pre body post : List Char)
    (hpre : '`' ∉ pre) (hbody : '`' ∉ body) :
    selectCandidate (pre ++ (jsonFenceMark ++ (body ++ (fenceMark ++ post)))) =
      pyStrip body := by
  set raw := pre ++ (jsonFenceMark ++ (body ++ (fenceMark ++ post))) with hraw
  have h1 : PyStr.find jsonFenceMark raw = some pre.length :=
    PyStr.find_at_append _ '`' _ pre (by decide) hpre
  have hdrop : raw.drop (pre.length + 7) = body ++ (fenceMark ++ post) := by
    have hassoc : raw = (pre ++ jsonFenceMark) ++ (body ++ (fenceMark ++ post)) := by
      simp [hraw, List.append_assoc]
    rw [hassoc]
    exact List.drop_left' (by rw [List.length_append, jsonFenceMark_length])
  have hfind2 : PyStr.find fenceMark (body ++ (fenceMark ++ post)) = some body.length :=
    PyStr.find_at_append _ '`' post body (by decide) hbody
  have h2 : PyStr.findFrom fenceMark raw (pre.length + 7) =
      some (body.length + (pre.length + 7)) := by
    unfold PyStr.findFrom
    rw [hdrop, hfind2]
    rfl
  have h3 : pySlice raw (pre.length + 7) (body.length + (pre.length + 7)) = body := by
    unfold PyStr.pySlice
    rw [hdrop]
    have he : body.length + (pre.length + 7) - (pre.length + 7) = body.length := by omega
    rw [he]
    exact List.take_left body _
  simp only [h1, h2, selectCandidate, h3]

theorem selectCandidate_generic_fenced (pre body post : List Char)
    (hnj : PyStr.find jsonFenceMark (pre ++ (fenceMark ++ (body ++ (fenceMark ++ post)))) = none)
    (hpre : '`' ∉ pre) (hbody : '`' ∉ body) :
    selectCandidate (pre ++ (fenceMark ++ (body ++ (fenceMark ++ post)))) =
      pyStrip body := by
  set raw := pre ++ (fenceMark ++ (body ++ (fenceMark ++ post))) with hraw
  have h1 : PyStr.find fenceMark raw = some pre.length :=
    PyStr.find_at_append _ '`' _ pre (by decide) hpre
  have hdrop : raw.drop (pre.length + 3) = body ++ (fenceMark ++ post) := by
    have hassoc : raw = (pre ++ fenceMark) ++ (body ++ (fenceMark ++ post)) := by
      simp [hraw, List.append_assoc]
    rw [hassoc]
    exact List.drop_left' (by rw [List.length_append, fenceMark_length])
  have hfind2 : PyStr.find fenceMark (body ++ (fenceMark ++ post)) = some body.length :=
    PyStr.find_at_append _ '`' post body (by decide) hbody
  have h2 : PyStr.findFrom fenceMark raw (pre.length + 3) =
      some (body.length + (pre.length + 3)) := by
    unfold PyStr.findFrom
    rw [hdrop, hfind2]
    rfl
  have h3 : pySlice raw (pre.length + 3) (body.length + (pre.length + 3)) = body := by
    unfold PyStr.pySlice
    rw [hdrop]
    have he : body.length + (pre.length + 3) - (pre.length + 3) = body.length := by omega
    rw [he]
    exact List.take_left body _
  simp only [hnj, h1, h2, selectCandidate, h3]

theorem selectCandidate_brace_fallback (raw : List Char) (i j : Nat)
    (hnf : PyStr.find fenceMark raw = none)
    (hfb : findChar lbrace raw = some i)
    (hlb : rfindChar rbrace raw = some j) (hij : i < j) :
    selectCandidate raw = pySlice raw i (j + 1) := by
  have hnj : PyStr.find jsonFenceMark raw = none :=
    PyStr.find_none_mono fenceMark jsonFenceMark raw ⟨"json".data, by decide⟩
      (by decide) hnf
  simp only [selectCandidate, hnj, hnf, hfb, hlb]
  rw [if_pos hij]

theorem slice_head_lbrace (raw : List Char) (i j : Nat)
    (hgi : raw.get? i = some lbrace) (hij : i < j) :
    (pySlice raw i (j + 1)).head? = some lbrace := by
  unfold PyStr.pySlice
  have hn : 0 < j + 1 - i := by omega
  rw [← List.get?_zero, List.get?_take hn, List.get?_zero, ← List.get?_zero,
    List.get?_drop]
  simpa using hgi

theorem slice_last_rbrace (raw : List Char) (i j : Nat)
    (hgj : raw.get? j = some rbrace) (hjlen : j < raw.length) (hij : i < j) :
    (pySlice raw i (j + 1)).getLast? = some rbrace := by
  unfold PyStr.pySlice
  have hlen : ((raw.drop i).take (j + 1 - i)).length = j + 1 - i := by
    rw [List.length_take, List.length_drop]
    exact min_eq_left (by omega)
  rw [List.getLast?_eq_get?, hlen]
  have he1 : j + 1 - i - 1 = j - i := by omega
  rw [he1, List.get?_take (by omega), List.get?_drop]
  have he2 : i + (j - i) = j := by omega
  rw [he2]
  exact hgj

end GenApi

set_option maxRecDepth 10000 in
/-- C4 counterexample: the claim says the extraction returns "the contents of
a ```json fenced block if one is present". On the response
`"```json foo {1} bar ```"` a ```json fenced block is present and its
(stripped) contents are `"foo {1} bar"`, but `RAGAPI.query_json`'s extraction
returns `"{1}"`: the additional cleanup pass (lines 64-73 of `api.py`) trims
the fenced contents to the first `{` and the last `}`. -/
theorem c4_counterexample :
    GenApi.extract_answer_text "```json foo {1} bar ```".data = "{1}".data ∧
    PyStr.find GenApi.jsonFenceMark "```json foo {1} bar ```".data = some 0 ∧
    PyStr.findFrom GenApi.fenceMark "```json foo {1} bar ```".data 7 = some 20 ∧
    PyStr.pyStrip (PyStr.pySlice "```json foo {1} bar ```".data 7 20) =
      "foo {1} bar".data ∧
    "{1}".data ≠ "foo {1} bar".data :=
  ⟨by decide, by decide, by decide, by decide, by decide⟩

/-- C4 (amended): the extraction selects the candidate JSON text in priority
order — contents of a ```json fenced block, else of a generic ``` block, else
the first-`{`-to-last-`}` slice of the raw text — and then additionally trims
the candidate to start at the first `{` and end at the last `}` when it does
not already; no branch raises (the embedding is a total function). When the
stripped fenced contents already start with `{` and end with `}` (the
specified test case: leading prose, then a ```json block holding a JSON
object) the result is exactly the stripped fenced contents; the
first-`{`-to-last-`}` slice is returned verbatim in the fallback branch. -/
theorem c4_extract_amended :
    (∀ pre body post : List Char, '`' ∉ pre → '`' ∉ body →
      (PyStr.pyStrip body).head? = some PyStr.lbrace →
      (PyStr.pyStrip body).getLast? = some PyStr.rbrace →
      GenApi.extract_answer_text
          (pre ++ (GenApi.jsonFenceMark ++ (body ++ (GenApi.fenceMark ++ post)))) =
        PyStr.pyStrip body) ∧
    (∀ pre body post : List Char,
      PyStr.find GenApi.jsonFenceMark
          (pre ++ (GenApi.fenceMark ++ (body ++ (GenApi.fenceMark ++ post)))) = none →
      '`' ∉ pre → '`' ∉ body →
      (PyStr.pyStrip body).head? = some PyStr.lbrace →
      (PyStr.pyStrip body).getLast? = some PyStr.rbrace →
      GenApi.extract_answer_text
          (pre ++ (GenApi.fenceMark ++ (body ++ (GenApi.fenceMark ++ post)))) =
        PyStr.pyStrip body) ∧
    (∀ (raw : List Char) (i j : Nat),
      PyStr.find GenApi.fenceMark raw = none →
      PyStr.findChar PyStr.lbrace raw = some i →
      PyStr.rfindChar PyStr.rbrace raw = some j →
      i < j →
      GenApi.extract_answer_text raw = PyStr.pySlice raw i (j + 1)) := by
  refine ⟨?_, ?_, ?_⟩
  · intro pre body post hpre hbody hb1 hb2
    rw [GenApi.extract_answer_text,
      GenApi.selectCandidate_json_fenced pre body post hpre hbody]
    exact GenApi.braceCleanup_noop _ (by rw [PyStr.pyStrip_idem]; exact hb1)
      (by rw [PyStr.pyStrip_idem]; exact hb2)
  · intro pre body post hnj hpre hbody hb1 hb2
    rw [GenApi.extract_answer_text,
      GenApi.selectCandidate_generic_fenced pre body post hnj hpre hbody]
    exact GenApi.braceCleanup_noop _ (by rw [PyStr.pyStrip_idem]; exact hb1)
      (by rw [PyStr.pyStrip_idem]; exact hb2)
  · intro raw i j hnf hfb hlb hij
    obtain ⟨hilen, hgi⟩ := PyStr.findChar_some _ _ _ hfb
    obtain ⟨hjlen, hgj⟩ := PyStr.rfindChar_some _ _ _ hlb
    rw [GenApi.extract_answer_text,
      GenApi.selectCandidate_brace_fallback raw i j hnf hfb hlb hij]
    exact GenApi.braceCleanup_noop _
      (PyStr.pyStrip_head _ _ (GenApi.slice_head_lbrace raw i j hgi hij) (by decide))
      (PyStr.pyStrip_getLast _ _ (GenApi.slice_last_rbrace raw i j hgj hjlen hij)
        (by decide))

set_option maxRecDepth 10000 in
/-- C4 witness: the amended theorem applied at concrete inputs — leading
prose then a ```json block (the spec's own test case), a generic ``` block,
and a fence-free response trimmed to its braces. -/
theorem c4_extract_amended_witness :
    GenApi.extract_answer_text
        ("Sure, here you go: ".data ++
          (GenApi.jsonFenceMark ++ (" {1} ".data ++ (GenApi.fenceMark ++ [])))) =
      PyStr.pyStrip " {1} ".data ∧
    GenApi.extract_answer_text
        ("Answer: ".data ++
          (GenApi.fenceMark ++ (" {2} ".data ++ (GenApi.fenceMark ++ [])))) =
      PyStr.pyStrip " {2} ".data ∧
    GenApi.extract_answer_text "x {3} y".data = PyStr.pySlice "x {3} y".data 2 5 :=
  ⟨c4_extract_amended.1 _ _ _ (by decide) (by decide) (by decide) (by decide),
   c4_extract_amended.2.1 _ _ _ (by decide) (by decide) (by decide) (by decide)
     (by decide),
   c4_extract_amended.2.2 _ 2 4 (by decide) (by decide) (by decide) (by decide)⟩

namespace GenApi

theorem firstDedupAux_sublist (l : List JVal) :
    ∀ seen, List.Sublist (firstDedupAux seen l) l := by
  induction l with
  | nil => intro seen; simp [firstDedupAux]
  | cons x xs ih =>
    intro seen
    by_cases h : x ∈ seen
    · simp only [firstDedupAux, if_pos h]
      exact (ih seen).cons x
    · simp only [firstDedupAux, if_neg h]
      exact (ih (x :: seen)).cons₂ x

theorem mem_firstDedupAux (l : List JVal) :
    ∀ seen u, u ∈ firstDedupAux seen l ↔ u ∈ l ∧ u ∉ seen := by
  induction l with
  | nil => intro seen u; simp [firstDedupAux]
  | cons x xs ih =>
    intro seen u
    by_cases h : x ∈ seen
    · simp only [firstDedupAux, if_pos h]
      rw [ih seen u]
      constructor
      · rintro ⟨hu, hn⟩
        exact ⟨List.mem_cons_of_mem x hu, hn⟩
      · rintro ⟨hu, hn⟩
        rcases List.mem_cons.mp hu with rfl | hu2
        · exact absurd h hn
        · exact ⟨hu2, hn⟩
    · simp only [firstDedupAux, if_neg h]
      constructor
      · intro hmem
        rcases List.mem_cons.mp hmem with rfl | hmem2
        · exact ⟨List.mem_cons_self _ _, h⟩
        · obtain ⟨hu, hn⟩ := (ih (x :: seen) u).mp hmem2
          exact ⟨List.mem_cons_of_mem x hu, fun hs => hn (List.mem_cons_of_mem x hs)⟩
      · rintro ⟨hu, hn⟩
        by_cases hx : u = x
        · subst hx
          exact List.mem_cons_self u _
        · rcases List.mem_cons.mp hu with h1 | h1
          · exact absurd h1 hx
          · refine List.mem_cons_of_mem x ((ih (x :: seen) u).mpr ⟨h1, fun hs => ?_⟩)
            rcases List.mem_cons.mp hs with h2 | h2
            · exact hx h2
            · exact hn h2

theorem nodup_firstDedupAux (l : List JVal) :
    ∀ seen, (firstDedupAux seen l).Nodup := by
  induction l with
  | nil => intro seen; simp [firstDedupAux]
  | cons x xs ih =>
    intro seen
    by_cases h : x ∈ seen
    · simp only [firstDedupAux, if_pos h]
      exact ih seen
    · simp only [firstDedupAux, if_neg h]
      rw [List.nodup_cons]
      refine ⟨fun hmem => ?_, ih (x :: seen)⟩
      exact ((mem_firstDedupAux xs (x :: seen) x).mp hmem).2 (List.mem_cons_self x seen)

theorem allUrlsHashable_cons {c : JVal} {rest : List JVal}
    (h : allUrlsHashable (c :: rest) = true) :
    allUrlsHashable rest = true ∧
      (∀ u, citationUrl c = some u → u.hashable = true) := by
  simp only [allUrlsHashable, List.all_cons, Bool.and_eq_true] at h ⊢
  refine ⟨h.2, fun u hu => ?_⟩
  have h1 := h.1
  rw [hu] at h1
  exact h1

theorem reconcileAux_eq (cs : List JVal) :
    ∀ seen acc : List JVal, allUrlsHashable cs = true →
      reconcileAux seen acc cs =
        .ok (acc.reverse ++ firstDedupAux seen (urlsOf cs)) := by
  induction cs with
  | nil => intro seen acc _; simp [reconcileAux, urlsOf, firstDedupAux]
  | cons c rest ih =>
    intro seen acc h
    obtain ⟨hrest, hurlh⟩ := allUrlsHashable_cons h
    cases c with
    | jstr s =>
      by_cases hs : JVal.jstr s ∈ seen
      · simp [reconcileAux, hs, ih seen acc hrest, urlsOf, List.filterMap_cons,
          citationUrl, firstDedupAux]
      · simp [reconcileAux, hs, ih (JVal.jstr s :: seen) (JVal.jstr s :: acc) hrest,
          urlsOf, List.filterMap_cons, citationUrl, firstDedupAux]
    | jobj fs =>
      cases hurl : fs.lookup "url" with
      | none =>
        simp [reconcileAux, hurl, ih seen acc hrest, urlsOf, List.filterMap_cons,
          citationUrl]
      | some url =>
        have hhash : url.hashable = true := hurlh url (by simp [citationUrl, hurl])
        by_cases hs : url ∈ seen
        · simp [reconcileAux, hurl, hhash, hs, ih seen acc hrest, urlsOf,
            List.filterMap_cons, citationUrl, firstDedupAux]
        · simp [reconcileAux, hurl, hhash, hs, ih (url :: seen) (url :: acc) hrest,
            urlsOf, List.filterMap_cons, citationUrl, firstDedupAux]
    | jnull =>
      simp [reconcileAux, ih seen acc hrest, urlsOf, List.filterMap_cons, citationUrl]
    | jbool b =>
      simp [reconcileAux, ih seen acc hrest, urlsOf, List.filterMap_cons, citationUrl]
    | jnum n =>
      simp [reconcileAux, ih seen acc hrest, urlsOf, List.filterMap_cons, citationUrl]
    | jarr a =>
      simp [reconcileAux, ih seen acc hrest, urlsOf, List.filterMap_cons, citationUrl]

end GenApi

/-- C1 counterexample: the claim says "any citation whose URL is not a
non-empty string is discarded". The code validates nothing: a bare
empty-string citation is kept, and an object citation whose `url` value is
the number 5 contributes that number to the output. -/
theorem c1_counterexample :
    GenApi.reconcileCitations [JVal.jstr ""] = .ok [JVal.jstr ""] ∧
    GenApi.reconcileCitations [JVal.jobj (JObj.ofList [("url", JVal.jnum 5)])] =
      .ok [JVal.jnum 5] :=
  ⟨rfl, rfl⟩

/-- C1 (amended): provided every object citation's `url` value is hashable
(the set-membership test raises `TypeError` otherwise), the reconciliation
step returns exactly the citation URLs — a bare string entry contributes
itself, an object entry with a `url` key contributes its `url` value, and
every other entry is discarded — deduplicated by URL in first-occurrence
order: the output has no duplicates, is a subsequence of the URL sequence,
and contains exactly the URLs that occur. No emptiness or string-type
validation of URLs is performed. -/
theorem c1_citations_amended (cs : List JVal)
    (h : GenApi.allUrlsHashable cs = true) :
    GenApi.reconcileCitations cs = .ok (GenApi.firstDedup (GenApi.urlsOf cs)) ∧
    (GenApi.firstDedup (GenApi.urlsOf cs)).Nodup ∧
    List.Sublist (GenApi.firstDedup (GenApi.urlsOf cs)) (GenApi.urlsOf cs) ∧
    (∀ u, u ∈ GenApi.firstDedup (GenApi.urlsOf cs) ↔ u ∈ GenApi.urlsOf cs) := by
  refine ⟨?_, GenApi.nodup_firstDedupAux _ _, GenApi.firstDedupAux_sublist _ _, ?_⟩
  · have := GenApi.reconcileAux_eq cs [] [] h
    simpa [GenApi.reconcileCitations, GenApi.firstDedup] using this
  · intro u
    rw [GenApi.firstDedup, GenApi.mem_firstDedupAux]
    simp

/-- C1 witness: the amended theorem at a concrete citation list mixing both
representations with a duplicate URL. -/
theorem c1_citations_amended_witness :
    GenApi.reconcileCitations
        [JVal.jstr "u1", JVal.jobj (JObj.ofList [("url", JVal.jstr "u1")]),
         JVal.jnum 7, JVal.jstr "u2"] =
      .ok (GenApi.firstDedup (GenApi.urlsOf
        [JVal.jstr "u1", JVal.jobj (JObj.ofList [("url", JVal.jstr "u1")]),
         JVal.jnum 7, JVal.jstr "u2"])) :=
  (c1_citations_amended _ (by decide)).1

namespace Qd

theorem retryAux_all_fail (outcome : Nat → Option String) (bo : ℚ) (err : Nat → String) :
    ∀ (k attempt : Nat), 1 ≤ k →
      (∀ i, attempt ≤ i → i < attempt + k → outcome i = some (err i)) →
      retryAux outcome bo k attempt =
        (.error (err (attempt + k - 1)),
         (List.range (k - 1)).map fun j => bo * ((attempt + j + 1 : Nat) : ℚ)) := by
  intro k
  induction k with
  | zero => intro attempt h1 _; exact absurd h1 (by omega)
  | succ k ihk =>
    intro attempt _ hfail
    have ho : outcome attempt = some (err attempt) := hfail attempt (le_refl _) (by omega)
    cases k with
    | zero =>
      simp [retryAux, ho]
    | succ k' =>
      have hfail' : ∀ i, attempt + 1 ≤ i → i < attempt + 1 + (k' + 1) →
          outcome i = some (err i) := fun i h1 h2 => hfail i (by omega) (by omega)
      have hrec := ihk (attempt + 1) (by omega) hfail'
      simp only [retryAux, ho, hrec]
      refine congrArg₂ Prod.mk ?_ ?_
      · congr 2
        omega
      · have he1 : k' + 1 - 1 = k' := by omega
        have he2 : k' + 1 + 1 - 1 = k' + 1 := by omega
        rw [he1, he2, List.range_succ_eq_map, List.map_cons, List.map_map]
        refine congrArg₂ List.cons ?_ ?_
        · norm_num
        · refine List.map_congr_left fun j _ => ?_
          simp only [Function.comp_apply, Nat.succ_eq_add_one]
          have h : attempt + 1 + j + 1 = attempt + (j + 1) + 1 := by omega
          rw [h]

theorem retryAux_ok_success (outcome : Nat → Option String) (bo : ℚ) :
    ∀ (k attempt : Nat), (retryAux outcome bo k attempt).1 = .ok () →
      ∃ i, attempt ≤ i ∧ i < attempt + max 1 k ∧ outcome i = none := by
  intro k
  induction k with
  | zero =>
    intro attempt h
    cases ho : outcome attempt with
    | none => exact ⟨attempt, le_refl _, by omega, ho⟩
    | some e => simp [retryAux, ho] at h
  | succ k ihk =>
    intro attempt h
    cases ho : outcome attempt with
    | none => exact ⟨attempt, le_refl _, by omega, ho⟩
    | some e =>
      cases k with
      | zero => simp [retryAux, ho] at h
      | succ k' =>
        simp only [retryAux, ho] at h
        obtain ⟨i, h1, h2, h3⟩ := ihk (attempt + 1) (by
          cases hrt : retryAux outcome bo (k' + 1) (attempt + 1) with
          | mk r ss => rw [hrt] at h; simpa using h)
        exact ⟨i, by omega, by omega, h3⟩

theorem upsert_batch_ok_each (mr : Nat) (bo : ℚ) (hmr : 1 ≤ mr) :
    ∀ outs : List (Nat → Option String), (upsert_batch outs mr bo).1 = .ok () →
      ∀ o ∈ outs, ∃ i, i < mr ∧ o i = none := by
  intro outs
  induction outs with
  | nil => intro _ o ho; simp at ho
  | cons o₀ rest ih =>
    intro h o ho
    cases hr : retry_loop o₀ mr bo with
    | mk r ss =>
      cases r with
      | error e => simp [upsert_batch, hr] at h
      | ok _ =>
        rcases List.mem_cons.mp ho with rfl | hmem
        · obtain ⟨i, h1, h2, h3⟩ := retryAux_ok_success o bo mr 0 (by
            simpa [retry_loop] using congrArg Prod.fst hr)
          refine ⟨i, ?_, h3⟩
          omega
        · refine ih ?_ o hmem
          cases hb : upsert_batch rest mr bo with
          | mk r' ss' =>
            simp only [upsert_batch, hr, hb] at h
            simpa using h

end Qd

/-- C5 counterexample: the claim says the failed upload is retried "with
exponential backoff". With the default budget (`max_retries = 5`) and
default `retry_backoff_sec = 2.0`, an always-failing upload sleeps
`[2, 4, 6, 8]` seconds — an arithmetic (linear) progression, not a geometric
one: the middle term fails the geometric-mean identity `s₁² = s₀·s₂`. -/
theorem c5_counterexample :
    (Qd.retry_loop (fun _ => some "err") Qd.defaultMaxRetries Qd.defaultRetryBackoffSec).2 =
      [2, 4, 6, 8] ∧
    ((Qd.retry_loop (fun _ => some "err") Qd.defaultMaxRetries
        Qd.defaultRetryBackoffSec).2.getD 1 0) ^ 2 ≠
      ((Qd.retry_loop (fun _ => some "err") Qd.defaultMaxRetries
          Qd.defaultRetryBackoffSec).2.getD 0 0) *
        ((Qd.retry_loop (fun _ => some "err") Qd.defaultMaxRetries
            Qd.defaultRetryBackoffSec).2.getD 2 0) := by
  constructor
  · norm_num [Qd.retry_loop, Qd.retryAux, Qd.defaultMaxRetries, Qd.defaultRetryBackoffSec]
  · norm_num [Qd.retry_loop, Qd.retryAux, Qd.defaultMaxRetries, Qd.defaultRetryBackoffSec]

/-- C5 (amended): `upsert_batch` retries a failed upload with a linearly
increasing backoff (`retry_backoff_sec * attempt` after the `attempt`-th
failure) up to `max_retries` total attempts (default 5); when every attempt
fails, the exception of the final attempt propagates, both out of the retry
loop and out of `upsert_batch`; and a batch write is never silently dropped:
if `upsert_batch` returns success, every chunk had a successful upload
attempt within the budget. -/
theorem c5_retry_amended (outcome : Nat → Option String) (mr : Nat) (bo : ℚ)
    (err : Nat → String) (hmr : 1 ≤ mr)
    (hfail : ∀ i, i < mr → outcome i = some (err i)) :
    Qd.retry_loop outcome mr bo =
      (.error (err (mr - 1)), (List.range (mr - 1)).map fun j => bo * ((j + 1 : Nat) : ℚ)) ∧
    (∀ rest, Qd.upsert_batch (outcome :: rest) mr bo =
      (.error (err (mr - 1)), (List.range (mr - 1)).map fun j => bo * ((j + 1 : Nat) : ℚ))) ∧
    (∀ outs : List (Nat → Option String), (Qd.upsert_batch outs mr bo).1 = .ok () →
      ∀ o ∈ outs, ∃ i, i < mr ∧ o i = none) := by
  have h1 : Qd.retry_loop outcome mr bo =
      (.error (err (mr - 1)), (List.range (mr - 1)).map fun j => bo * ((j + 1 : Nat) : ℚ)) := by
    have := Qd.retryAux_all_fail outcome bo err mr 0 hmr
      (fun i hi1 hi2 => hfail i (by omega))
    simpa [Qd.retry_loop] using this
  refine ⟨h1, fun rest => ?_, Qd.upsert_batch_ok_each mr bo hmr⟩
  simp [Qd.upsert_batch, h1]

/-- C5 witness: the amended theorem at the default budget and backoff with an
always-failing upload. -/
theorem c5_retry_amended_witness :
    Qd.retry_loop (fun _ => some "e") 5 2 =
      (.error "e", (List.range 4).map fun j => (2 : ℚ) * ((j + 1 : Nat) : ℚ)) :=
  (c5_retry_amended (fun _ => some "e") 5 2 (fun _ => "e") (by omega)
    (fun _ _ => rfl)).1

/-- C6: the pipeline's stored retrieval width is 15 regardless of the
caller-suggested `top_k`; the store call issued by a query carries limit 15;
and the pipeline's behaviour depends on the store only through its response
at limit 15 (so 15 is the limit passed to the fused search). -/
theorem c6_top_k_fixed (c : String) (k : Int) (m : Option Nat) (q : String)
    (env env' : Pipeline.PipelineEnv) :
    (Pipeline.RAGPipeline.init c k m).topK = 15 ∧
    ((Pipeline.RAGPipeline.init c k m).query env q).2.storeCalls = [(q, 15)] ∧
    ((∀ s, env.queryPoints s 15 = env'.queryPoints s 15) →
      env.generateAnswer = env'.generateAnswer →
      (Pipeline.RAGPipeline.init c k m).query env q =
        (Pipeline.RAGPipeline.init c k m).query env' q) := by
  refine ⟨rfl, ?_, ?_⟩
  · cases hr : Pipeline.retrieve_top_k env.queryPoints q 15 with
    | error e => simp [Pipeline.RAGPipeline.query, hr, Pipeline.RAGPipeline.init]
    | ok docs =>
      by_cases hd : docs.isEmpty
      · simp [Pipeline.RAGPipeline.query, hr, hd, Pipeline.RAGPipeline.init]
      · cases hg : env.generateAnswer q docs m with
        | error e =>
          simp [Pipeline.RAGPipeline.query, hr, hd, hg, Pipeline.RAGPipeline.init]
        | ok a =>
          simp [Pipeline.RAGPipeline.query, hr, hd, hg, Pipeline.RAGPipeline.init]
  · intro hs hg
    have hr : Pipeline.retrieve_top_k env.queryPoints q 15 =
        Pipeline.retrieve_top_k env'.queryPoints q 15 := by
      unfold Pipeline.retrieve_top_k
      rw [hs q]
    simp only [Pipeline.RAGPipeline.query, Pipeline.RAGPipeline.init]
    rw [hr, hg]

/-- C6 witness: the theorem at a caller-suggested width of 10 and two stores
that agree at limit 15. -/
theorem c6_top_k_fixed_witness :
    (Pipeline.RAGPipeline.init "nasa_corpus_v1" 10 none).topK = 15 ∧
    ((Pipeline.RAGPipeline.init "nasa_corpus_v1" 10 none).query
        ⟨fun _ _ => .ok [], fun _ _ _ => .ok "a"⟩ "q").2.storeCalls = [("q", 15)] ∧
    (Pipeline.RAGPipeline.init "nasa_corpus_v1" 10 none).query
        ⟨fun _ _ => .ok [], fun _ _ _ => .ok "a"⟩ "q" =
      (Pipeline.RAGPipeline.init "nasa_corpus_v1" 10 none).query
        ⟨fun _ n => if n = 15 then .ok [] else .error "x", fun _ _ _ => .ok "a"⟩ "q" := by
  have h := c6_top_k_fixed "nasa_corpus_v1" 10 none "q"
    ⟨fun _ _ => .ok [], fun _ _ _ => .ok "a"⟩
    ⟨fun _ n => if n = 15 then .ok [] else .error "x", fun _ _ _ => .ok "a"⟩
  exact ⟨h.1, h.2.1, h.2.2 (fun s => rfl) rfl⟩

/-- C7: a store response with zero points makes `retrieve_top_k` return the
empty list (no raise), and a pipeline query over an empty retrieval returns
the explicit insufficient-information answer with an empty `retrieved_docs`
list and `num_docs = 0`, without invoking the LLM. -/
theorem c7_empty_retrieval (qp : String → Nat → Except String (List Pipeline.Point))
    (q : String) (k : Nat) (env : Pipeline.PipelineEnv) (p : Pipeline.RAGPipeline)
    (hqp : qp q k = .ok [])
    (henv : env.queryPoints q p.topK = .ok []) :
    Pipeline.retrieve_top_k qp q k = .ok [] ∧
    (p.query env q).1 = Pipeline.noDocsDict ∧
    ((p.query env q).1.lookup "answer") = some (.vstr Pipeline.noDocsAnswer) ∧
    ((p.query env q).1.lookup "retrieved_docs") = some (.vdocs []) ∧
    ((p.query env q).1.lookup "num_docs") = some (.vnum 0) ∧
    (p.query env q).2.llmCalls = 0 := by
  have h2 : Pipeline.retrieve_top_k env.queryPoints q p.topK = .ok [] := by
    simp [Pipeline.retrieve_top_k, henv, List.mapM, List.mapM.loop, pure, Except.pure]
  have hq : p.query env q = (Pipeline.noDocsDict, ⟨[(q, p.topK)], 0⟩) := by
    simp [Pipeline.RAGPipeline.query, h2]
  refine ⟨by simp [Pipeline.retrieve_top_k, hqp, List.mapM, List.mapM.loop, pure,
    Except.pure], by rw [hq], ?_, ?_, ?_, by rw [hq]⟩
  · rw [hq]; rfl
  · rw [hq]; rfl
  · rw [hq]; rfl

/-- C7 witness: the theorem at a store that returns zero points. -/
theorem c7_empty_retrieval_witness :
    Pipeline.retrieve_top_k (fun _ _ => .ok []) "q" 15 = .ok [] ∧
    ((Pipeline.RAGPipeline.init "c" 15 none).query
        ⟨fun _ _ => .ok [], fun _ _ _ => .ok "a"⟩ "q").1 = Pipeline.noDocsDict ∧
    ((Pipeline.RAGPipeline.init "c" 15 none).query
        ⟨fun _ _ => .ok [], fun _ _ _ => .ok "a"⟩ "q").2.llmCalls = 0 := by
  have h := c7_empty_retrieval (fun _ _ => .ok []) "q" 15
    ⟨fun _ _ => .ok [], fun _ _ _ => .ok "a"⟩
    (Pipeline.RAGPipeline.init "c" 15 none) rfl rfl
  exact ⟨h.1, h.2.1, h.2.2.2.2.2⟩

/-- C10: for every behaviour of the retrieval and generation clients,
`RAGPipeline.query` is total (the embedding returns a dict, never an
exception), the dict carries the keys `answer`, `retrieved_docs`, `num_docs`
and `success`, and whenever the retrieval or the generation step raises, the
result is the except-branch dict: `success = False`, empty `retrieved_docs`,
`num_docs = 0` and an answer embedding the error message. -/
theorem c10_query_robust (env : Pipeline.PipelineEnv) (p : Pipeline.RAGPipeline)
    (q : String) :
    (((p.query env q).1.lookup "answer").isSome ∧
     ((p.query env q).1.lookup "retrieved_docs").isSome ∧
     ((p.query env q).1.lookup "num_docs").isSome ∧
     ((p.query env q).1.lookup "success").isSome) ∧
    (∀ e, Pipeline.retrieve_top_k env.queryPoints q p.topK = .error e →
      (p.query env q).1 = Pipeline.errorDict e) ∧
    (∀ e docs, Pipeline.retrieve_top_k env.queryPoints q p.topK = .ok docs →
      docs ≠ [] → env.generateAnswer q docs p.maxTokens = .error e →
      (p.query env q).1 = Pipeline.errorDict e) ∧
    (∀ e, (Pipeline.errorDict e).lookup "success" = some (.vbool false) ∧
      (Pipeline.errorDict e).lookup "retrieved_docs" = some (.vdocs []) ∧
      (Pipeline.errorDict e).lookup "num_docs" = some (.vnum 0) ∧
      (Pipeline.errorDict e).lookup "answer" = some (.vstr (Pipeline.errorAnswer e))) := by
  refine ⟨?_, ?_, ?_, fun e => ⟨rfl, rfl, rfl, rfl⟩⟩
  · cases hr : Pipeline.retrieve_top_k env.queryPoints q p.topK with
    | error e =>
      simp [Pipeline.RAGPipeline.query, hr, Pipeline.errorDict, List.lookup]
    | ok docs =>
      by_cases hd : docs.isEmpty
      · simp [Pipeline.RAGPipeline.query, hr, hd, Pipeline.noDocsDict, List.lookup]
      · cases hg : env.generateAnswer q docs p.maxTokens with
        | error e =>
          simp [Pipeline.RAGPipeline.query, hr, hd, hg, Pipeline.errorDict, List.lookup]
        | ok a =>
          simp [Pipeline.RAGPipeline.query, hr, hd, hg, Pipeline.successDict, List.lookup]
  · intro e he
    simp [Pipeline.RAGPipeline.query, he]
  · intro e docs hr hne hg
    have hd : docs.isEmpty = false := by
      cases docs with
      | nil => exact absurd rfl hne
      | cons d ds => rfl
    simp [Pipeline.RAGPipeline.query, hr, hd, hg]

/-- C10 witness: the theorem at a store that raises; the query returns the
except-branch dict embedding the wrapped error. -/
theorem c10_query_robust_witness :
    (((Pipeline.RAGPipeline.init "c" 15 none).query
        ⟨fun _ _ => .error "boom", fun _ _ _ => .ok "a"⟩ "q").1.lookup "answer").isSome ∧
    ((Pipeline.RAGPipeline.init "c" 15 none).query
        ⟨fun _ _ => .error "boom", fun _ _ _ => .ok "a"⟩ "q").1 =
      Pipeline.errorDict "Retrieval failed: boom" := by
  have h := c10_query_robust ⟨fun _ _ => .error "boom", fun _ _ _ => .ok "a"⟩
    (Pipeline.RAGPipeline.init "c" 15 none) "q"
  exact ⟨h.1.1, h.2.1 "Retrieval failed: boom" rfl⟩

set_option maxRecDepth 100000 in
/-- Reference vectors validating the SHA-1 embedding against
`hashlib.sha1(...).hexdigest()`. -/
theorem sha1_reference_vectors :
    Sha1.sha1Hex [] = "da39a3ee5e6b4b0d3255bfef95601890afd80709" ∧
    Sha1.sha1Hex (Sha1.utf8Encode "abc") = "a9993e364706816aba3e25717850c26c9cd0d89d" ∧
    Sha1.sha1Hex (Sha1.utf8Encode "The quick brown fox jumps over the lazy dog") =
      "2fd4e1c67a2d28fced849ee1bb76e7391b93eb12" :=
  ⟨by decide, by decide, by decide⟩

set_option maxRecDepth 100000 in
/-- Reference vector validating the UUID5 embedding against
`str(uuid.uuid5(uuid.NAMESPACE_URL, "abc"))`. -/
theorem uuid5_reference_vector :
    Uuid.uuid5 Uuid.namespaceURL "abc" = "68661508-f3c4-55b4-945d-ae2b4dfe5db4" := by
  decide

namespace Qd

theorem filter_upsert_twice (st : List (String × JObj)) (pid : String) (pl pl' : JObj) :
    ((upsertPoint (upsertPoint st pid pl) pid pl').filter
      (fun e => e.1 = pid)).length = 1 := by
  have h1 : ∀ l : List (String × JObj),
      ((l.filter (fun e => e.1 ≠ pid)).filter (fun e => e.1 = pid)) = [] := by
    intro l
    induction l with
    | nil => rfl
    | cons x xs ih =>
      by_cases hx : x.1 = pid
      · simp [List.filter_cons, hx, ih]
      · simp [List.filter_cons, hx, ih]
  simp only [upsertPoint, List.filter_append, List.length_append, h1]
  simp

end Qd

/-- C3: for records whose `id` is the same non-empty string, `make_point_id`
is the deterministic name-based UUID5 (over `uuid.NAMESPACE_URL`) of that
domain ID alone — the rest of the record does not matter — and upserting the
same chunk twice into the (spec-modelled) store leaves exactly one point
with that point ID. -/
theorem c3_point_id (r1 r2 : JObj) (s : String) (st : List (String × JObj))
    (pl pl' : JObj)
    (h1 : r1.lookup "id" = some (.jstr s)) (h2 : r2.lookup "id" = some (.jstr s))
    (hs : s ≠ "") :
    Qd.make_point_id r1 = Uuid.uuid5 Uuid.namespaceURL s ∧
    Qd.make_point_id r1 = Qd.make_point_id r2 ∧
    ((Qd.upsertPoint (Qd.upsertPoint st (Qd.make_point_id r1) pl)
        (Qd.make_point_id r2) pl').filter
      (fun e => e.1 = Qd.make_point_id r1)).length = 1 := by
  have e1 : Qd.make_point_id r1 = Uuid.uuid5 Uuid.namespaceURL s := by
    simp [Qd.make_point_id, h1, hs]
  have e2 : Qd.make_point_id r2 = Uuid.uuid5 Uuid.namespaceURL s := by
    simp [Qd.make_point_id, h2, hs]
  refine ⟨e1, e1.trans e2.symm, ?_⟩
  rw [e1, e2]
  exact Qd.filter_upsert_twice st _ pl pl'

/-- C3 witness: two records sharing the domain ID `"abc"` but differing in
their text map to the same point ID, the UUID5 of `"abc"`. -/
theorem c3_point_id_witness :
    Qd.make_point_id (JObj.ofList [("id", JVal.jstr "abc")]) =
      Uuid.uuid5 Uuid.namespaceURL "abc" ∧
    Qd.make_point_id (JObj.ofList [("id", JVal.jstr "abc")]) =
      Qd.make_point_id (JObj.ofList [("id", JVal.jstr "abc"), ("text", JVal.jstr "other")]) := by
  have h := c3_point_id (JObj.ofList [("id", JVal.jstr "abc")])
    (JObj.ofList [("id", JVal.jstr "abc"), ("text", JVal.jstr "other")]) "abc"
    [] JObj.nil JObj.nil rfl rfl (by decide)
  exact ⟨h.1, h.2.1⟩

/-- C8: when the pipeline succeeds but the extracted answer text fails to
parse as JSON, `query_json` returns the parse-failure dict — the raw
unparsed LLM answer as `answer_markdown`, empty `citations` and
`image_citations`, `confidence_score` 0 and the distinct
`"Failed to parse JSON response: ..."` error — and the LLM was invoked
exactly once (no retry). -/
theorem c8_parse_failure (env : GenApi.ApiEnv) (p : Pipeline.RAGPipeline) (q : String)
    (docs : List Pipeline.RetrievedDoc) (a m : String)
    (hret : Pipeline.retrieve_top_k env.penv.queryPoints q p.topK = .ok docs)
    (hne : docs ≠ [])
    (hllm : env.penv.generateAnswer q docs p.maxTokens = .ok a)
    (hparse : env.jsonLoads (String.mk (GenApi.extract_answer_text a.data)) = .error m) :
    (GenApi.query_json env p q).1 = GenApi.parseFailDict a m ∧
    GenApi.jvIndex "answer_markdown" (GenApi.query_json env p q).1 = .ok (.jstr a) ∧
    GenApi.jvIndex "citations" (GenApi.query_json env p q).1 = .ok (.jarr .nil) ∧
    GenApi.jvIndex "image_citations" (GenApi.query_json env p q).1 = .ok (.jarr .nil) ∧
    GenApi.jvIndex "confidence_score" (GenApi.query_json env p q).1 = .ok (.jnum 0) ∧
    GenApi.jvIndex "error" (GenApi.query_json env p q).1 =
      .ok (.jstr ("Failed to parse JSON response: " ++ m)) ∧
    (GenApi.query_json env p q).2.llmCalls = 1 := by
  have hd : docs.isEmpty = false := by
    cases docs with
    | nil => exact absurd rfl hne
    | cons d ds => rfl
  have hq : p.query env.penv q = (Pipeline.successDict a docs q, ⟨[(q, p.topK)], 1⟩) := by
    simp [Pipeline.RAGPipeline.query, hret, hd, hllm]
  have hdict : GenApi.query_json env p q = (GenApi.parseFailDict a m, ⟨[(q, p.topK)], 1⟩) := by
    simp [GenApi.query_json, hq, GenApi.rvalTruthy, GenApi.answerOf,
      Pipeline.successDict, List.lookup, hparse]
  refine ⟨by rw [hdict], ?_, ?_, ?_, ?_, ?_, by rw [hdict]⟩
  · rw [hdict]; rfl
  · rw [hdict]; rfl
  · rw [hdict]; rfl
  · rw [hdict]; rfl
  · rw [hdict]; rfl

/-- C8 witness: a store with one point, an LLM answering non-JSON, and a
failing `json.loads`. -/
theorem c8_parse_failure_witness :
    (GenApi.query_json
        ⟨⟨fun _ _ => .ok [⟨JVal.jnum 1, 0, some JObj.nil⟩], fun _ _ _ => .ok "not json"⟩,
          fun _ => .error "Expecting value", fun _ => .ok []⟩
        (Pipeline.RAGPipeline.init "c" 15 none) "q").1 =
      GenApi.parseFailDict "not json" "Expecting value" ∧
    (GenApi.query_json
        ⟨⟨fun _ _ => .ok [⟨JVal.jnum 1, 0, some JObj.nil⟩], fun _ _ _ => .ok "not json"⟩,
          fun _ => .error "Expecting value", fun _ => .ok []⟩
        (Pipeline.RAGPipeline.init "c" 15 none) "q").2.llmCalls = 1 := by
  have h := c8_parse_failure
    ⟨⟨fun _ _ => .ok [⟨JVal.jnum 1, 0, some JObj.nil⟩], fun _ _ _ => .ok "not json"⟩,
      fun _ => .error "Expecting value", fun _ => .ok []⟩
    (Pipeline.RAGPipeline.init "c" 15 none) "q"
    [⟨JVal.jnum 1, 0, "", JVal.jstr "Unknown", JObj.nil⟩] "not json" "Expecting value"
    (by rfl) (by simp) (by rfl) (by rfl)
  exact ⟨h.1, h.2.2.2.2.2.2⟩

namespace NasaCli

theorem uint32_le_iff (a b : UInt32) : (a ≤ b) ↔ a.toNat ≤ b.toNat := by
  rw [UInt32.le_def, BitVec.le_def]
  rfl

theorem isUpper_iff (c : Char) : c.isUpper = true ↔ (65 ≤ c.toNat ∧ c.toNat ≤ 90) := by
  simp [Char.isUpper, uint32_le_iff, Char.toNat]
  rfl

theorem isLower_iff (c : Char) : c.isLower = true ↔ (97 ≤ c.toNat ∧ c.toNat ≤ 122) := by
  simp [Char.isLower, uint32_le_iff, Char.toNat]
  rfl

theorem char_toNat_ofNat_valid (n : Nat) (h : n < 55296) : (Char.ofNat n).toNat = n := by
  have hv : n.isValidChar := Or.inl h
  simp [Char.ofNat, hv, Char.ofNatAux, Char.toNat, UInt32.toNat, BitVec.toNat_ofNatLt]

theorem isAlphanum_toLower (c : Char) : (c.toLower).isAlphanum = c.isAlphanum := by
  unfold Char.toLower
  by_cases h : c.toNat ≥ 65 ∧ c.toNat ≤ 90
  · rw [if_pos h]
    have ht : (Char.ofNat (c.toNat + 32)).toNat = c.toNat + 32 :=
      char_toNat_ofNat_valid _ (by omega)
    have hl : (Char.ofNat (c.toNat + 32)).isLower = true := by
      rw [isLower_iff, ht]
      omega
    have hu : c.isUpper = true := isUpper_iff c |>.mpr ⟨h.1, h.2⟩
    simp [Char.isAlphanum, Char.isAlpha, hl, hu]
  · rw [if_neg h]

theorem isUpper_toLower_false (c : Char) : (c.toLower).isUpper = false := by
  unfold Char.toLower
  by_cases h : c.toNat ≥ 65 ∧ c.toNat ≤ 90
  · rw [if_pos h]
    have ht : (Char.ofNat (c.toNat + 32)).toNat = c.toNat + 32 :=
      char_toNat_ofNat_valid _ (by omega)
    rw [Bool.eq_false_iff]
    intro hu
    rw [isUpper_iff, ht] at hu
    omega
  · rw [if_neg h]
    rw [Bool.eq_false_iff]
    intro hu
    rw [isUpper_iff] at hu
    exact h ⟨hu.1, hu.2⟩

theorem claimSlug_eq_slugify (sec : List Char) :
    claimSlug (String.mk sec) = slugify sec := by
  have hmap : (sec.map Char.toLower).map (fun c => if c.isAlphanum then c else '-') =
      sec.map (fun ch => if ch.isAlphanum then ch.toLower else '-') := by
    rw [List.map_map]
    refine List.map_congr_left fun c _ => ?_
    simp only [Function.comp_apply]
    rw [isAlphanum_toLower]
  simp only [claimSlug, slugify, PyStr.stripChar]
  rw [hmap]

theorem mem_stripChar {c : Char} {s : List Char} {x : Char}
    (h : x ∈ PyStr.stripChar c s) : x ∈ s := by
  unfold PyStr.stripChar at h
  rw [List.mem_reverse] at h
  have h1 := (@List.dropWhile_suffix Char ((s.dropWhile (· = c)).reverse)
    (fun y => decide (y = c))).subset h
  rw [List.mem_reverse] at h1
  exact (List.dropWhile_suffix (fun y => y = c)).subset h1

theorem slugify_chars (sec : List Char) :
    ∀ c ∈ slugify sec, (c.isAlphanum = true ∧ c.isUpper = false) ∨ c = '-' := by
  intro c hc
  have hmem : c ∈ sec.map fun ch => if ch.isAlphanum then ch.toLower else '-' :=
    mem_stripChar hc
  obtain ⟨x, _, hx⟩ := List.mem_map.mp hmem
  by_cases ha : x.isAlphanum
  · rw [if_pos ha] at hx
    subst hx
    exact Or.inl ⟨by rw [isAlphanum_toLower]; exact ha, isUpper_toLower_false x⟩
  · rw [if_neg ha] at hx
    exact Or.inr hx.symm

theorem head_not_strip (c : Char) (s : List Char) :
    ∀ x, (PyStr.stripChar c s).head? = some x → x ≠ c := by
  intro x hx
  unfold PyStr.stripChar at hx
  rw [List.head?_reverse] at hx
  set w := (s.dropWhile (· = c)).reverse with hw
  cases hd : w.dropWhile (· = c) with
  | nil => rw [hd] at hx; simp at hx
  | cons y ys =>
    have hy : (decide (y = c)) = false := by
      have := List.head?_dropWhile_not (fun z => decide (z = c)) w
      rw [hd] at this
      simpa using this
    have hlast : (w.dropWhile (· = c)).getLast? = some x := by rw [← hx]
    obtain ⟨pref, hpref⟩ := @List.dropWhile_suffix Char w (fun z => decide (z = c))
    have hne : (w.dropWhile (· = c)) ≠ [] := by rw [hd]; simp
    have hwlast : w.getLast? = some x := by
      rw [← hpref, List.getLast?_append, hlast]
      rfl
    have hhead : ((s.dropWhile (· = c))).head? = some x := by
      rw [← List.getLast?_reverse, ← hw]
      exact hwlast
    have := PyStr.head_not_of_dropWhile (fun z => decide (z = c)) s x hhead
    simpa using this

theorem last_not_strip (c : Char) (s : List Char) :
    ∀ x, (PyStr.stripChar c s).getLast? = some x → x ≠ c := by
  intro x hx
  unfold PyStr.stripChar at hx
  rw [List.getLast?_reverse] at hx
  have := PyStr.head_not_of_dropWhile (fun z => decide (z = c))
    (s.dropWhile (· = c)).reverse x hx
  simpa using this

end NasaCli

namespace Sha1

theorem beBytes_length (k n : Nat) : (beBytes k n).length = k := by
  induction k generalizing n with
  | zero => rfl
  | succ k ih => simp [beBytes, ih]

theorem sha1Bytes_length (msg : List Nat) : (sha1Bytes msg).length = 20 := by
  unfold sha1Bytes
  rcases sha1Chunks (padMessage msg).length (padMessage msg)
    (1732584193, 4023233417, 2562383102, 271733878, 3285377520) with ⟨a, b, c, d, e⟩
  simp [List.length_append, beBytes_length]

theorem hexOfBytes_length (bs : List Nat) : (hexOfBytes bs).length = 2 * bs.length := by
  induction bs with
  | nil => rfl
  | cons b rest ih =>
    simp only [hexOfBytes, List.map_cons, List.flatten_cons, List.length_append,
      List.length_cons] at ih ⊢
    simp [hexByte] at ih ⊢
    omega

end Sha1

namespace NasaCli

theorem make_id_data (sp p t : String) :
    (make_id sp p t).data =
      (p.data ++ (":".data ++ (slugify (make_section sp.data) ++ ":".data))) ++
        ((Sha1.hexOfBytes (Sha1.sha1Bytes
          (Sha1.utf8Encode (p ++ "\n" ++ (sp ++ ("\n" ++ t)))))).take 8) := by
  unfold make_id
  simp [String.data_append, List.append_assoc]

theorem hash8_length (p sp t : String) :
    ((Sha1.hexOfBytes (Sha1.sha1Bytes
      (Sha1.utf8Encode (p ++ "\n" ++ (sp ++ ("\n" ++ t)))))).take 8).length = 8 := by
  rw [List.length_take, Sha1.hexOfBytes_length, Sha1.sha1Bytes_length]
  decide

end NasaCli

set_option maxRecDepth 100000 in
/-- C2 counterexample: two failures of the claim. First, `make_id` hashes
collide: the section `"s"` of corpus `"PMC1"` with body texts `"50138"` and
`"65984"` yields the same ID `"PMC1:s:8e1409ca"` (a birthday collision of
the 8-hex-character truncated SHA-1), so changing `bodyText` did not change
the ID. Second, the slug is not the slugified `sectionPath`: for
`"Results — Cell Growth"` the code slugs only the part after `" — "`,
producing `"PMC1:cell-growth:..."`, not the claimed
`"PMC1:results---cell-growth:..."`. -/
theorem c2_counterexample :
    NasaCli.make_id "s" "PMC1" "50138" = NasaCli.make_id "s" "PMC1" "65984" ∧
    ("50138" : String) ≠ "65984" ∧
    NasaCli.make_id "Results — Cell Growth" "PMC1" "x" = "PMC1:cell-growth:d15be5e5" ∧
    String.mk (NasaCli.claimSlug "Results — Cell Growth") = "results---cell-growth" ∧
    ("PMC1:results---cell-growth:").data.isPrefixOf
      (NasaCli.make_id "Results — Cell Growth" "PMC1" "x").data = false :=
  ⟨by decide, by decide, by decide, by decide, by decide⟩

/-- C2 (amended): `make_id` is deterministic — equal inputs give equal IDs —
and has the form `corpusID:slug:hash`, where the slug is the claim's
slugification (lowercase, non-alphanumeric to hyphen, hyphens trimmed)
applied to the part of `sectionPath` after the first `" — "` separator
(`make_section`), and the hash is the first 8 hex characters of the SHA-1
digest of `f"{corpusID}\n{sectionPath}\n{bodyText}"`; the slug contains only
non-uppercase alphanumerics and hyphens with none at either end, the hash
has exactly 8 characters, and changing any input changes the ID whenever the
truncated digests differ (they can collide, as the counterexample shows). -/
theorem c2_make_id_amended (sp p t sp' p' t' : String) :
    (sp = sp' → p = p' → t = t' →
      NasaCli.make_id sp p t = NasaCli.make_id sp' p' t') ∧
    NasaCli.make_id sp p t =
      p ++ ":" ++ (String.mk (NasaCli.claimSlug (String.mk (NasaCli.make_section sp.data))) ++
        (":" ++ String.mk ((Sha1.hexOfBytes (Sha1.sha1Bytes
          (Sha1.utf8Encode (p ++ "\n" ++ (sp ++ ("\n" ++ t)))))).take 8))) ∧
    (∀ c ∈ NasaCli.slugify (NasaCli.make_section sp.data),
      (c.isAlphanum = true ∧ c.isUpper = false) ∨ c = '-') ∧
    (∀ c, (NasaCli.slugify (NasaCli.make_section sp.data)).head? = some c → c ≠ '-') ∧
    (∀ c, (NasaCli.slugify (NasaCli.make_section sp.data)).getLast? = some c → c ≠ '-') ∧
    ((Sha1.hexOfBytes (Sha1.sha1Bytes
      (Sha1.utf8Encode (p ++ "\n" ++ (sp ++ ("\n" ++ t)))))).take 8).length = 8 ∧
    ((Sha1.hexOfBytes (Sha1.sha1Bytes
        (Sha1.utf8Encode (p ++ "\n" ++ (sp ++ ("\n" ++ t)))))).take 8 ≠
      (Sha1.hexOfBytes (Sha1.sha1Bytes
        (Sha1.utf8Encode (p' ++ "\n" ++ (sp' ++ ("\n" ++ t')))))).take 8 →
      NasaCli.make_id sp p t ≠ NasaCli.make_id sp' p' t') := by
  refine ⟨fun h1 h2 h3 => by rw [h1, h2, h3], ?_,
    NasaCli.slugify_chars _,
    fun c hc => NasaCli.head_not_strip '-' _ c hc,
    fun c hc => NasaCli.last_not_strip '-' _ c hc,
    NasaCli.hash8_length p sp t, ?_⟩
  · rw [NasaCli.claimSlug_eq_slugify]
    rfl
  · intro hne heq
    apply hne
    have hdata := congrArg String.data heq
    rw [NasaCli.make_id_data, NasaCli.make_id_data] at hdata
    exact (List.append_inj' hdata
      (by rw [NasaCli.hash8_length p sp t, NasaCli.hash8_length p' sp' t'])).2

set_option maxRecDepth 100000 in
/-- C2 witness: the amended theorem at concrete inputs whose truncated
digests differ, so the IDs differ. -/
theorem c2_make_id_amended_witness :
    NasaCli.make_id "Intro" "PMC2" "t1" ≠ NasaCli.make_id "Intro" "PMC2" "t2" ∧
    NasaCli.make_id "Intro" "PMC2" "t1" =
      "PMC2" ++ ":" ++ (String.mk (NasaCli.claimSlug (String.mk (NasaCli.make_section "Intro".data))) ++
        (":" ++ String.mk ((Sha1.hexOfBytes (Sha1.sha1Bytes
          (Sha1.utf8Encode ("PMC2" ++ "\n" ++ ("Intro" ++ ("\n" ++ "t1")))))).take 8))) :=
  ⟨(c2_make_id_amended "Intro" "PMC2" "t1" "Intro" "PMC2" "t2").2.2.2.2.2.2 (by decide),
   (c2_make_id_amended "Intro" "PMC2" "t1" "Intro" "PMC2" "t2").2.1⟩

namespace Splade

theorem topkLe_trans (a b c : Nat × ℚ)
    (h1 : decide (b.2 < a.2 ∨ (a.2 = b.2 ∧ a.1 ≤ b.1)) = true)
    (h2 : decide (c.2 < b.2 ∨ (b.2 = c.2 ∧ b.1 ≤ c.1)) = true) :
    decide (c.2 < a.2 ∨ (a.2 = c.2 ∧ a.1 ≤ c.1)) = true := by
  rw [decide_eq_true_eq] at h1 h2 ⊢
  rcases h1 with h1 | ⟨h1e, h1i⟩ <;> rcases h2 with h2 | ⟨h2e, h2i⟩
  · exact Or.inl (lt_trans h2 h1)
  · exact Or.inl (by rw [← h2e]; exact h1)
  · exact Or.inl (by rw [h1e]; exact h2)
  · exact Or.inr ⟨h1e.trans h2e, le_trans h1i h2i⟩

theorem topkLe_total (a b : Nat × ℚ) :
    (decide (b.2 < a.2 ∨ (a.2 = b.2 ∧ a.1 ≤ b.1)) ||
      decide (a.2 < b.2 ∨ (b.2 = a.2 ∧ b.1 ≤ a.1))) = true := by
  rcases lt_trichotomy a.2 b.2 with h | h | h
  · rw [Bool.or_eq_true]
    exact Or.inr (by rw [decide_eq_true_eq]; exact Or.inl h)
  · rcases Nat.le_total a.1 b.1 with hi | hi
    · rw [Bool.or_eq_true]
      exact Or.inl (by rw [decide_eq_true_eq]; exact Or.inr ⟨h, hi⟩)
    · rw [Bool.or_eq_true]
      exact Or.inr (by rw [decide_eq_true_eq]; exact Or.inr ⟨h.symm, hi⟩)
  · rw [Bool.or_eq_true]
    exact Or.inl (by rw [decide_eq_true_eq]; exact Or.inl h)

theorem sparseOfRow_length_le (k : Nat) (row : List ℚ) :
    (sparseOfRow k row).length ≤ k := by
  unfold sparseOfRow topkSelect
  refine le_trans (List.length_filter_le _ _) ?_
  rw [List.length_take]
  exact le_trans (min_le_left _ _) (min_le_left _ _)

theorem sparseOfRow_mem (k : Nat) (row : List ℚ) (pr : Nat × ℚ)
    (h : pr ∈ sparseOfRow k row) : 0 < pr.2 ∧ row.get? pr.1 = some pr.2 := by
  unfold sparseOfRow topkSelect at h
  obtain ⟨hmem, hpos⟩ := List.mem_filter.mp h
  refine ⟨by simpa using hpos, ?_⟩
  have h3 := List.Sublist.mem hmem (List.take_sublist _ _)
  have h4 : pr ∈ row.enum := List.mem_mergeSort.mp h3
  have h5 := List.mem_enum_iff_getElem?.mp h4
  rw [List.get?_eq_getElem?]
  exact h5

theorem sparseOfRow_keys_nodup (k : Nat) (row : List ℚ) :
    ((sparseOfRow k row).map Prod.fst).Nodup := by
  unfold sparseOfRow topkSelect
  have hperm := (List.mergeSort_perm row.enum
    (fun a b => decide (b.2 < a.2 ∨ (a.2 = b.2 ∧ a.1 ≤ b.1)))).map Prod.fst
  have hnodup : ((row.enum.mergeSort
      (fun a b => decide (b.2 < a.2 ∨ (a.2 = b.2 ∧ a.1 ≤ b.1)))).map Prod.fst).Nodup := by
    rw [hperm.nodup_iff, List.enum_map_fst]
    exact List.nodup_range _
  exact List.Nodup.sublist
    (((List.filter_sublist _).trans (List.take_sublist _ _)).map Prod.fst) hnodup

theorem sparseOfRow_topk (k : Nat) (row : List ℚ) (pr : Nat × ℚ)
    (hpr : pr ∈ sparseOfRow k row) (j : Nat) (w : ℚ)
    (hj : row.get? j = some w)
    (hnot : j ∉ (sparseOfRow k row).map Prod.fst) : w ≤ pr.2 := by
  have hpos : 0 < pr.2 := (sparseOfRow_mem k row pr hpr).1
  unfold sparseOfRow topkSelect at hpr hnot
  obtain ⟨hmemtake, _⟩ := List.mem_filter.mp hpr
  have hjw : (j, w) ∈ row.enum := by
    rw [List.mk_mem_enum_iff_getElem?]
    rw [List.get?_eq_getElem?] at hj
    exact hj
  have hjs : (j, w) ∈ row.enum.mergeSort
      (fun a b => decide (b.2 < a.2 ∨ (a.2 = b.2 ∧ a.1 ≤ b.1))) :=
    List.mem_mergeSort.mpr hjw
  by_cases hcase : (j, w) ∈ (row.enum.mergeSort
      (fun a b => decide (b.2 < a.2 ∨ (a.2 = b.2 ∧ a.1 ≤ b.1)))).take (min k row.length)
  · by_cases hw : 0 < w
    · exact absurd (List.mem_map.mpr
        ⟨(j, w), List.mem_filter.mpr ⟨hcase, by simpa using hw⟩, rfl⟩) hnot
    · have hw0 : w ≤ 0 := le_of_not_lt hw
      linarith
  · have hdrop : (j, w) ∈ (row.enum.mergeSort
        (fun a b => decide (b.2 < a.2 ∨ (a.2 = b.2 ∧ a.1 ≤ b.1)))).drop (min k row.length) := by
      have hfull := hjs
      rw [← List.take_append_drop (min k row.length) (row.enum.mergeSort
        (fun a b => decide (b.2 < a.2 ∨ (a.2 = b.2 ∧ a.1 ≤ b.1))))] at hfull
      rcases List.mem_append.mp hfull with h1 | h1
      · exact absurd h1 hcase
      · exact h1
    have hsorted := List.sorted_mergeSort topkLe_trans topkLe_total row.enum
    rw [← List.take_append_drop (min k row.length) (row.enum.mergeSort
      (fun a b => decide (b.2 < a.2 ∨ (a.2 = b.2 ∧ a.1 ≤ b.1))))] at hsorted
    have hrel := (List.pairwise_append.mp hsorted).2.2 pr hmemtake (j, w) hdrop
    rw [decide_eq_true_eq] at hrel
    rcases hrel with h | ⟨he, _⟩
    · exact le_of_lt h
    · exact le_of_eq he.symm

theorem encode_length (logitsFn : List String → List (List (List ℚ)))
    (act : ℚ → ℚ) (k bs : Nat) (hbs : 1 ≤ bs)
    (hmodel : ∀ b, (logitsFn b).length = b.length) :
    ∀ texts : List String, (encode logitsFn act k bs texts).length = texts.length := by
  have main : ∀ (n : Nat) (texts : List String), texts.length ≤ n →
      (encode logitsFn act k bs texts).length = texts.length := by
    intro n
    induction n with
    | zero =>
      intro texts h
      have hnil : texts = [] := List.length_eq_zero.mp (Nat.le_zero.mp h)
      subst hnil
      simp [encode, chunkList]
    | succ n ih =>
      intro texts h
      cases texts with
      | nil => simp [encode, chunkList]
      | cons x xs =>
        have hb : (encodeBatch act k (logitsFn (x :: xs.take (bs - 1)))).length =
            (x :: xs.take (bs - 1)).length := by
          rw [encodeBatch, List.length_map, hmodel]
        have hlen : (xs.drop (bs - 1)).length ≤ n := by
          rw [List.length_drop]
          simp only [List.length_cons] at h
          omega
        have hrest := ih (xs.drop (bs - 1)) hlen
        calc (encode logitsFn act k bs (x :: xs)).length
            = (encodeBatch act k (logitsFn (x :: xs.take (bs - 1)))).length +
              (encode logitsFn act k bs (xs.drop (bs - 1))).length := by
              simp only [encode]
              rw [chunkList]
              simp [List.length_append]
          _ = (x :: xs.take (bs - 1)).length + (xs.drop (bs - 1)).length := by
              rw [hb, hrest]
          _ = (x :: xs).length := by
              simp only [List.length_cons, List.length_take, List.length_drop]
              omega
  exact fun texts => main texts.length texts (le_refl _)

end Splade

/-- C9: `SpladeEncoder.encode` returns exactly one sparse map per input text
(given one logit matrix per batch text and a positive batch size), where the
per-document map is the top-`min(top_k, numel)` selection over the pooled
row `pooledRow act mat` — the per-term max over token positions of
`act (relu logit)`, `act` standing for `log1p` — filtered to strictly
positive weights: each map has at most `top_k` entries, every stored weight
is strictly positive and equals its pooled-row value, term ids are unique,
and every term left out of a map has pooled weight no larger than any kept
weight. -/
theorem c9_splade_encode (logitsFn : List String → List (List (List ℚ)))
    (act : ℚ → ℚ) (k bs : Nat) (texts : List String)
    (hbs : 1 ≤ bs) (hmodel : ∀ b, (logitsFn b).length = b.length) :
    (Splade.encode logitsFn act k bs texts).length = texts.length ∧
    (∀ mats, Splade.encodeBatch act k mats =
      mats.map fun mat => Splade.sparseOfRow k (Splade.pooledRow act mat)) ∧
    (∀ row : List ℚ, (Splade.sparseOfRow k row).length ≤ k) ∧
    (∀ (row : List ℚ) (pr : Nat × ℚ), pr ∈ Splade.sparseOfRow k row →
      0 < pr.2 ∧ row.get? pr.1 = some pr.2) ∧
    (∀ row : List ℚ, ((Splade.sparseOfRow k row).map Prod.fst).Nodup) ∧
    (∀ (row : List ℚ) (pr : Nat × ℚ), pr ∈ Splade.sparseOfRow k row →
      ∀ (j : Nat) (w : ℚ), row.get? j = some w →
        j ∉ (Splade.sparseOfRow k row).map Prod.fst → w ≤ pr.2) :=
  ⟨Splade.encode_length logitsFn act k bs hbs hmodel texts,
   fun _ => rfl,
   fun row => Splade.sparseOfRow_length_le k row,
   fun row pr h => Splade.sparseOfRow_mem k row pr h,
   fun row => Splade.sparseOfRow_keys_nodup k row,
   fun row pr h j w hj hn => Splade.sparseOfRow_topk k row pr h j w hj hn⟩

/-- C9 witness: the theorem at one text, batch size 1, a two-term vocabulary
and the identity activation. -/
theorem c9_splade_encode_witness :
    (Splade.encode (fun b => b.map fun _ => [[1, -1]]) (fun x => x) 2 1 ["a"]).length =
      (["a"] : List String).length :=
  (c9_splade_encode (fun b => b.map fun _ => [[1, -1]]) (fun x => x) 2 1 ["a"]
    (by omega) (fun b => by simp)).1
